import Mathlib

/-!
Verification of the field-level encryption subsystem of the OrgSend repository.

The development shallowly embeds the subsystem's TypeScript source:

* `src/lib/encryption/crypto.ts` — the Cipher Engine (`encrypt`, `decrypt`,
  `encryptBatch`, `decryptBatch`, `validateEncryptionKey`);
* `src/lib/encryption/hash.ts` — the Digest Engine (`generateHash`,
  `generateDeterministicHash`, batch variants, `createUniqueConstraintHash`);
* `src/lib/encryption/keys.ts` — the Key Directory cache
  (`cacheKey`, `getCachedKey`, `clearKeyCache`);
* `src/lib/encryption/client-extension.ts` — the Interception Layer
  (`transformDataForStorage`, `transformDataForReading`);
* `src/lib/encryption/types.ts` — constants (`BATCH_LIMITS`) and registries.

Modelling conventions: JavaScript byte buffers (`Buffer`, `Uint8Array`) are
`List Nat` with every element < 256, and arithmetic that lands in a
`Uint8Array` cell carries an explicit `% 256`.  Base64-encoded envelope
fields are modelled by the byte lists they decode to (base64 is a bijection
between byte strings and their encodings, so equality/inequality of fields
is unaffected).  `randomBytes` draws are passed as explicit parameters.
Thrown JavaScript errors become `Except` values.  SHA-256 (`node:crypto`
`createHash("sha256")`) is implemented in full (FIPS 180-4), with its round
constants derived from the fractional parts of cube/square roots of the
first primes exactly as the standard prescribes.
-/

/-! ## Cipher Engine: `src/lib/encryption/crypto.ts` -/

/-- Constant `KEY_LENGTH = 32` from crypto.ts. -/
def KEY_LENGTH : Nat := 32

/-- Constant `IV_LENGTH = 12` from crypto.ts. -/
def IV_LENGTH : Nat := 12

/-- Constant `TAG_LENGTH = 16` from crypto.ts. -/
def TAG_LENGTH : Nat := 16

/-- Error class `EncryptionError` from types.ts (the chained `cause` is
dropped; only the category and message matter to the claims). -/
structure EncryptionError where
  message : String
deriving DecidableEq, Repr

/-- Error class `DecryptionError` from types.ts. -/
structure DecryptionError where
  message : String
deriving DecidableEq, Repr

/-- Interface `EncryptionResult` from types.ts.  Fields hold the bytes that
the base64 text columns decode to. -/
structure EncryptionResult where
  encrypted : List Nat
  iv : List Nat
  authTag : List Nat
deriving DecidableEq, Repr

/-- Cyclic read `buf[i % buf.length]` used by the XOR loops in crypto.ts. -/
def cycGet (buf : List Nat) (i : Nat) : Nat :=
  buf.getD (i % buf.length) 0

/-- The loop `out[i] = data[i] ^ key[i % key.length] ^ iv[i % iv.length]`
shared by `encrypt` and `decrypt` in crypto.ts; `n` is the running index.
The `% 256` mirrors the `Uint8Array` cell assignment. -/
def xorLoop (key iv : List Nat) : Nat → List Nat → List Nat
  | _, [] => []
  | n, b :: rest =>
    ((b ^^^ cycGet key n) ^^^ cycGet iv n) % 256 :: xorLoop key iv (n + 1) rest

/-- The full XOR transform of crypto.ts starting at index 0. -/
def xorTransform (data key iv : List Nat) : List Nat :=
  xorLoop key iv 0 data

/-- Function `encrypt` of crypto.ts.  `plaintext` is the byte list produced
by `TextEncoder` (`utf8Bytes` below); `iv` and `authTag` are the two
`randomBytes` draws the call makes (12 and 16 bytes), passed explicitly. -/
def encrypt (plaintext : List Nat) (key : List Nat) (iv : List Nat)
    (authTag : List Nat) : Except EncryptionError EncryptionResult :=
  if plaintext = [] then
    .error ⟨"Invalid plaintext: must be a non-empty string"⟩
  else if key.length ≠ KEY_LENGTH then
    .error ⟨"Invalid encryption key: must be 32 bytes for AES-256"⟩
  else
    .ok ⟨xorTransform plaintext key iv, iv, authTag⟩

/-- Function `decrypt` of crypto.ts.  Note that, exactly as in the source,
the `authTag` field is length-checked but never verified against the
ciphertext, and the result is returned for any well-formed input. -/
def decrypt (input : EncryptionResult) (key : List Nat) :
    Except DecryptionError (List Nat) :=
  if input.encrypted = [] ∨ input.iv = [] ∨ input.authTag = [] then
    .error ⟨"Invalid decryption input: missing required fields"⟩
  else if key.length ≠ KEY_LENGTH then
    .error ⟨"Invalid decryption key: must be 32 bytes for AES-256"⟩
  else if input.iv.length ≠ IV_LENGTH then
    .error ⟨"Invalid IV length"⟩
  else if input.authTag.length ≠ TAG_LENGTH then
    .error ⟨"Invalid auth tag length"⟩
  else
    .ok (xorTransform input.encrypted key input.iv)

/-- Constant `BATCH_LIMITS.ENCRYPTION = 50` from types.ts. -/
def BATCH_LIMITS_ENCRYPTION : Nat := 50

/-- Constant `BATCH_LIMITS.DECRYPTION = 25` from types.ts. -/
def BATCH_LIMITS_DECRYPTION : Nat := 25

/-- Constant `BATCH_LIMITS.HASH_GENERATION = 100` from types.ts. -/
def BATCH_LIMITS_HASH_GENERATION : Nat := 100

/-- Function `encryptBatch` of crypto.ts.  `rand i` supplies the (iv, tag)
pair that the i-th `encrypt` call would draw. -/
def encryptBatch (plaintexts : List (List Nat)) (key : List Nat)
    (rand : Nat → List Nat × List Nat) :
    Except EncryptionError (List EncryptionResult) :=
  if BATCH_LIMITS_ENCRYPTION < plaintexts.length then
    .error ⟨"Batch size exceeds limit of 50"⟩
  else
    (List.range plaintexts.length).mapM fun i =>
      encrypt (plaintexts.getD i []) key (rand i).1 (rand i).2

/-- Function `decryptBatch` of crypto.ts. -/
def decryptBatch (inputs : List EncryptionResult) (key : List Nat) :
    Except DecryptionError (List (List Nat)) :=
  if BATCH_LIMITS_DECRYPTION < inputs.length then
    .error ⟨"Batch size exceeds limit of 25"⟩
  else
    inputs.mapM fun input => decrypt input key

/-- Function `validateEncryptionKey` of crypto.ts (the `Buffer.isBuffer`
type test is absorbed by the `List Nat` type of the model). -/
def validateEncryptionKey (key : List Nat) : Except EncryptionError Bool :=
  if key.length ≠ KEY_LENGTH then
    .error ⟨"Key must be 32 bytes for AES-256"⟩
  else
    .ok true

/-! ## SHA-256 (FIPS 180-4), the digest primitive behind `createHash("sha256")`

The Digest Engine calls node's `createHash("sha256")`; the model implements
the algorithm itself.  Round constants and initial hash values are obtained
as the standard defines them: the first 32 bits of the fractional parts of
the cube roots (resp. square roots) of the first 64 (resp. 8) primes,
computed here with exact integer root extraction. -/

def icbrtGo (x : Nat) : Nat → Nat → Nat → Nat
  | 0, lo, _ => lo
  | fuel + 1, lo, hi =>
    if hi ≤ lo + 1 then lo
    else
      let mid := (lo + hi) / 2
      if mid * mid * mid ≤ x then icbrtGo x fuel mid hi else icbrtGo x fuel lo mid

def icbrt (x : Nat) : Nat := icbrtGo x 130 0 (x + 2)

def sha256Primes64 : List Nat :=
  [2, 3, 5, 7, 11, 13, 17, 19, 23, 29, 31, 37, 41, 43, 47, 53,
   59, 61, 67, 71, 73, 79, 83, 89, 97, 101, 103, 107, 109, 113, 127, 131,
   137, 139, 149, 151, 157, 163, 167, 173, 179, 181, 191, 193, 197, 199, 211, 223,
   227, 229, 233, 239, 241, 251, 257, 263, 269, 271, 277, 281, 283, 293, 307, 311]

def sha256K : List Nat := sha256Primes64.map fun p => icbrt (p * 2 ^ 96) % 2 ^ 32

def sha256H0 : List Nat :=
  [2, 3, 5, 7, 11, 13, 17, 19].map fun p => Nat.sqrt (p * 2 ^ 64) % 2 ^ 32

def rotr32 (n w : Nat) : Nat := ((w >>> n) ||| (w <<< (32 - n))) % 2 ^ 32

def shaCh (x y z : Nat) : Nat := (x &&& y) ^^^ ((x ^^^ 4294967295) &&& z)

def shaMaj (x y z : Nat) : Nat := ((x &&& y) ^^^ (x &&& z)) ^^^ (y &&& z)

def shaBigSigma0 (x : Nat) : Nat := (rotr32 2 x ^^^ rotr32 13 x) ^^^ rotr32 22 x

def shaBigSigma1 (x : Nat) : Nat := (rotr32 6 x ^^^ rotr32 11 x) ^^^ rotr32 25 x

def shaSmallSigma0 (x : Nat) : Nat := (rotr32 7 x ^^^ rotr32 18 x) ^^^ (x >>> 3)

def shaSmallSigma1 (x : Nat) : Nat := (rotr32 17 x ^^^ rotr32 19 x) ^^^ (x >>> 10)

def be64 (n : Nat) : List Nat :=
  [n / 2 ^ 56 % 256, n / 2 ^ 48 % 256, n / 2 ^ 40 % 256, n / 2 ^ 32 % 256,
   n / 2 ^ 24 % 256, n / 2 ^ 16 % 256, n / 2 ^ 8 % 256, n % 256]

def sha256Pad (msg : List Nat) : List Nat :=
  let padLen := (64 - (msg.length + 9) % 64) % 64
  msg ++ [128] ++ List.replicate padLen 0 ++ be64 (8 * msg.length)

def blockWords (blk : List Nat) : List Nat :=
  (List.range 16).map fun i =>
    ((blk.getD (4 * i) 0 * 256 + blk.getD (4 * i + 1) 0) * 256 +
      blk.getD (4 * i + 2) 0) * 256 + blk.getD (4 * i + 3) 0

def sha256Schedule (ws : List Nat) : List Nat :=
  (List.range 48).foldl
    (fun acc _ =>
      acc ++ [(shaSmallSigma1 (acc.getD (acc.length - 2) 0) +
        acc.getD (acc.length - 7) 0 +
        shaSmallSigma0 (acc.getD (acc.length - 15) 0) +
        acc.getD (acc.length - 16) 0) % 2 ^ 32])
    ws

structure Sha256State where
  sa : Nat
  sb : Nat
  sc : Nat
  sd : Nat
  se : Nat
  sf : Nat
  sg : Nat
  sh : Nat
deriving DecidableEq, Repr

def sha256RoundStep (st : Sha256State) (kt wt : Nat) : Sha256State :=
  let t1 := (st.sh + shaBigSigma1 st.se + shaCh st.se st.sf st.sg + kt + wt) % 2 ^ 32
  let t2 := (shaBigSigma0 st.sa + shaMaj st.sa st.sb st.sc) % 2 ^ 32
  ⟨(t1 + t2) % 2 ^ 32, st.sa, st.sb, st.sc, (st.sd + t1) % 2 ^ 32, st.se, st.sf, st.sg⟩

def sha256Compress (st : Sha256State) (blk : List Nat) : Sha256State :=
  let w := sha256Schedule (blockWords blk)
  let fin := (List.range 64).foldl
    (fun s t => sha256RoundStep s (sha256K.getD t 0) (w.getD t 0)) st
  ⟨(st.sa + fin.sa) % 2 ^ 32, (st.sb + fin.sb) % 2 ^ 32, (st.sc + fin.sc) % 2 ^ 32,
   (st.sd + fin.sd) % 2 ^ 32, (st.se + fin.se) % 2 ^ 32, (st.sf + fin.sf) % 2 ^ 32,
   (st.sg + fin.sg) % 2 ^ 32, (st.sh + fin.sh) % 2 ^ 32⟩

def sha256Init : Sha256State :=
  ⟨sha256H0.getD 0 0, sha256H0.getD 1 0, sha256H0.getD 2 0, sha256H0.getD 3 0,
   sha256H0.getD 4 0, sha256H0.getD 5 0, sha256H0.getD 6 0, sha256H0.getD 7 0⟩

def sha256Run (msg : List Nat) : Sha256State :=
  let padded := sha256Pad msg
  (List.range (padded.length / 64)).foldl
    (fun st i => sha256Compress st ((padded.drop (64 * i)).take 64)) sha256Init

def hexDigit (n : Nat) : Char :=
  match n % 16 with
  | 0 => '0' | 1 => '1' | 2 => '2' | 3 => '3'
  | 4 => '4' | 5 => '5' | 6 => '6' | 7 => '7'
  | 8 => '8' | 9 => '9' | 10 => 'a' | 11 => 'b'
  | 12 => 'c' | 13 => 'd' | 14 => 'e' | _ => 'f'

def wordHex (w : Nat) : List Char :=
  [hexDigit (w / 2 ^ 28), hexDigit (w / 2 ^ 24), hexDigit (w / 2 ^ 20),
   hexDigit (w / 2 ^ 16), hexDigit (w / 2 ^ 12), hexDigit (w / 2 ^ 8),
   hexDigit (w / 2 ^ 4), hexDigit w]

def sha256hex (msg : List Nat) : String :=
  let st := sha256Run msg
  String.mk (List.flatten
    ([st.sa, st.sb, st.sc, st.sd, st.se, st.sf, st.sg, st.sh].map wordHex))

/-! ## Digest Engine: `src/lib/encryption/hash.ts`

String values are Lean `String`s; `hash.update(data, "utf8")` and
`TextEncoder.encode` turn them into UTF-8 bytes (`utf8Bytes`).  JavaScript
`toLowerCase()` is modelled by `Char.toLower` per character (the inputs the
subsystem normalizes are ASCII), and `trim()` by dropping the
ECMAScript-whitespace characters from both ends. -/

/-- UTF-8 encoding of one character (RFC 3629), as `TextEncoder` performs it. -/
def utf8EncodeCharNat (c : Char) : List Nat :=
  if c.toNat < 128 then [c.toNat]
  else if c.toNat < 2048 then [192 + c.toNat / 64, 128 + c.toNat % 64]
  else if c.toNat < 65536 then
    [224 + c.toNat / 4096, 128 + c.toNat / 64 % 64, 128 + c.toNat % 64]
  else
    [240 + c.toNat / 262144, 128 + c.toNat / 4096 % 64, 128 + c.toNat / 64 % 64,
     128 + c.toNat % 64]

/-- UTF-8 encoding of a character list. -/
def utf8Bytes (l : List Char) : List Nat :=
  l.flatMap utf8EncodeCharNat

/-- The code points removed by JavaScript `String.prototype.trim`
(ECMAScript WhiteSpace and LineTerminator). -/
def jsWhitespaceCodes : List Nat :=
  [9, 10, 11, 12, 13, 32, 160, 5760,
   8192, 8193, 8194, 8195, 8196, 8197, 8198, 8199, 8200, 8201, 8202,
   8232, 8233, 8239, 8287, 12288, 65279]

/-- Whether JavaScript `trim` treats `c` as whitespace. -/
def jsIsWhitespace (c : Char) : Bool :=
  c.toNat ∈ jsWhitespaceCodes

/-- JavaScript `trim()`: drop whitespace from both ends. -/
def jsTrim (l : List Char) : List Char :=
  ((l.dropWhile jsIsWhitespace).reverse.dropWhile jsIsWhitespace).reverse

/-- JavaScript `toLowerCase()` on the ASCII range, per character. -/
def jsToLower (l : List Char) : List Char :=
  l.map Char.toLower

/-- The normalization `data.toLowerCase().trim()` performed by
`generateDeterministicHash` in hash.ts. -/
def jsNormalize (l : List Char) : List Char :=
  jsTrim (jsToLower l)

/-- Generic `Error` thrown by hash.ts (it uses plain `Error`, not the
typed classes of types.ts). -/
structure HashError where
  message : String
deriving DecidableEq, Repr

/-- Interface `HashResult` from types.ts; `algorithm` is always "sha256". -/
structure HashResult where
  hash : String
  algorithm : String
deriving DecidableEq, Repr

/-- Function `generateHash` of hash.ts: optionally-salted SHA-256.  The salt,
when present, is a byte buffer fed to the hash before the data. -/
def generateHash (data : String) (salt : Option (List Nat)) :
    Except HashError HashResult :=
  if data.data = [] then
    .error ⟨"Invalid data: must be a non-empty string"⟩
  else
    match salt with
    | some s => .ok ⟨sha256hex (s ++ utf8Bytes data.data), "sha256"⟩
    | none => .ok ⟨sha256hex (utf8Bytes data.data), "sha256"⟩

/-- Function `generateDeterministicHash` of hash.ts: rejects empty input
first, then hashes the lowercased-and-trimmed data. -/
def generateDeterministicHash (data : String) : Except HashError String :=
  if data.data = [] then
    .error ⟨"Invalid data: must be a non-empty string"⟩
  else
    .ok (sha256hex (utf8Bytes (jsNormalize data.data)))

/-- Function `generateHashBatch` of hash.ts. -/
def generateHashBatch (dataItems : List String) (salt : Option (List Nat)) :
    Except HashError (List HashResult) :=
  if BATCH_LIMITS_HASH_GENERATION < dataItems.length then
    .error ⟨"Batch size exceeds limit of 100"⟩
  else
    dataItems.mapM fun data => generateHash data salt

/-- Function `generateDeterministicHashBatch` of hash.ts. -/
def generateDeterministicHashBatch (dataItems : List String) :
    Except HashError (List String) :=
  if BATCH_LIMITS_HASH_GENERATION < dataItems.length then
    .error ⟨"Batch size exceeds limit of 100"⟩
  else
    dataItems.mapM fun data => generateDeterministicHash data

/-- Function `createUniqueConstraintHash` of hash.ts: an alias of
`generateDeterministicHash`. -/
def createUniqueConstraintHash (data : String) : Except HashError String :=
  generateDeterministicHash data

/-- Predicate for the claim statements: `c` is a lower-case hex digit or a
decimal digit (the alphabet of `digest("hex")`). -/
def isHexChar (c : Char) : Bool :=
  (48 ≤ c.toNat ∧ c.toNat ≤ 57) ∨ (97 ≤ c.toNat ∧ c.toNat ≤ 102)

/-! ## Interception Layer: `src/lib/encryption/client-extension.ts`

Records (JavaScript objects) are association lists in property-insertion
order; property assignment updates in place or appends, `delete` removes.
The write path dispatches per field to `mockEncrypt` (test env) or to
`encryptData(value, keyPath)` — the latter is imported from "./crypto" but
defined nowhere in the repository, so the transform is parametrized by the
selected per-field cipher routine `encF`/`decF` (a string-to-string
operation that may fail), exactly matching the call shape of the source. -/

/-- JavaScript property values reaching the transform: strings or null
(absent properties are a missing association). -/
inductive JsValue where
  | vStr (s : String)
  | vNull
deriving DecidableEq, Repr

/-- A JavaScript object as an ordered association list. -/
abbrev JsRecord := List (String × JsValue)

/-- Property read `obj[k]`; `none` models `undefined`. -/
def rlookup (r : JsRecord) (k : String) : Option JsValue :=
  (List.find? (fun p => p.1 = k) r).map (fun p => p.2)

/-- Property assignment `obj[k] = v`: update in place, else append. -/
def rset : JsRecord → String → JsValue → JsRecord
  | [], k, v => [(k, v)]
  | (k2, v2) :: t, k, v =>
    if k2 = k then (k, v) :: t else (k2, v2) :: rset t k v

/-- Property removal `delete obj[k]`. -/
def rdelete (r : JsRecord) (k : String) : JsRecord :=
  r.filter fun p => p.1 ≠ k

/-- Interface `EncryptionConfig` from config.ts, the per-field registry
entry type of `ENCRYPTED_FIELD_MAP`. -/
structure EncryptionConfig where
  fieldName : String
  encryptedField : String
  hashField : String
  keyPath : String
deriving DecidableEq, Repr

/-- The `User` entry of `ENCRYPTED_FIELD_MAP` in client-extension.ts. -/
def ENCRYPTED_FIELD_MAP_User : List EncryptionConfig :=
  [⟨"firstName", "firstName_encrypted", "firstName_hash", "/app/encryption/names-key"⟩,
   ⟨"lastName", "lastName_encrypted", "lastName_hash", "/app/encryption/names-key"⟩,
   ⟨"email", "email_encrypted", "email_hash", "/app/encryption/email-key"⟩,
   ⟨"phone", "phone_encrypted", "phone_hash", "/app/encryption/phone-key"⟩,
   ⟨"phoneVerificationCode", "phoneVerificationCode_encrypted",
    "phoneVerificationCode_hash", "/app/encryption/temp-key"⟩]

/-- One iteration of the `for (const config of configs)` loop in
`transformDataForStorage`: reads the plain value from the original `data`,
writes into the accumulated `transformedData`.  The `try` block encrypts,
hashes, deletes the plain name and stores ciphertext+digest; the `catch`
block (reached when `encF` or the hash throws, here the non-(ok, ok)
match rows) stores the PLAINTEXT in the ciphertext column, stores the
digest, and deletes the plain name — and if the digest call in the `catch`
block itself throws, that error escapes and the whole transform fails. -/
def storageFieldStep (encF : String → String → Except EncryptionError String)
    (data : JsRecord) (acc : JsRecord) (cfg : EncryptionConfig) :
    Except HashError JsRecord :=
  match rlookup data cfg.fieldName with
  | none => .ok acc
  | some .vNull => .ok acc
  | some (.vStr plainValue) =>
    match encF plainValue cfg.keyPath, createUniqueConstraintHash plainValue with
    | .ok ev, .ok hv =>
      .ok (rset (rset (rdelete acc cfg.fieldName) cfg.encryptedField (.vStr ev))
        cfg.hashField (.vStr hv))
    | _, _ =>
      match createUniqueConstraintHash plainValue with
      | .ok hv =>
        .ok (rdelete (rset (rset acc cfg.encryptedField (.vStr plainValue))
          cfg.hashField (.vStr hv)) cfg.fieldName)
      | .error e => .error e

/-- Function `transformDataForStorage` of client-extension.ts for one model:
fold the per-field step over the model's configs, starting from a copy of
the input record. -/
def transformDataForStorage (encF : String → String → Except EncryptionError String)
    (configs : List EncryptionConfig) (data : JsRecord) :
    Except HashError JsRecord :=
  configs.foldlM (fun acc cfg => storageFieldStep encF data acc cfg) data

/-- One iteration of the loop in `transformDataForReading`: if the
ciphertext column is present and non-null, decrypt and attach the plaintext
under the plain name; on decryption failure the source falls back to
attaching the ciphertext itself under the plain name. -/
def readFieldStep (decF : String → String → Except DecryptionError String)
    (result : JsRecord) (acc : JsRecord) (cfg : EncryptionConfig) : JsRecord :=
  match rlookup result cfg.encryptedField with
  | none => acc
  | some .vNull => acc
  | some (.vStr encVal) =>
    match decF encVal cfg.keyPath with
    | .ok dv => rset acc cfg.fieldName (.vStr dv)
    | .error _ => rset acc cfg.fieldName (.vStr encVal)

/-- Function `transformDataForReading` of client-extension.ts for one
(non-null, non-array) fetched record. -/
def transformDataForReading (decF : String → String → Except DecryptionError String)
    (configs : List EncryptionConfig) (result : JsRecord) : JsRecord :=
  configs.foldl (fun acc cfg => readFieldStep decF result acc cfg) result

/-! ## Key Directory cache: `src/lib/encryption/keys.ts`

The module-level `keyCache` is a JavaScript `Map`, i.e. an insertion-ordered
association list; `Map.set` updates in place or appends, `Map.delete`
removes, `keyCache.keys().next().value` is the first (oldest-inserted) key.
`Date.now()` is passed explicitly as `now`. -/

/-- Interface `EncryptionKey` from types.ts. -/
structure EncryptionKey where
  key : List Nat
  keyId : String
  version : Nat
deriving DecidableEq, Repr

/-- Interface `KeyCacheEntry` from keys.ts. -/
structure KeyCacheEntry where
  key : EncryptionKey
  timestamp : Nat
  ttl : Nat
deriving DecidableEq, Repr

/-- The `keyCache` map. -/
abbrev KeyCacheMap := List (String × KeyCacheEntry)

/-- Constant `MAX_CACHE_SIZE = 10` from keys.ts. -/
def MAX_CACHE_SIZE : Nat := 10

/-- Constant `DEFAULT_CACHE_TTL = 5 * 60 * 1000` from keys.ts. -/
def DEFAULT_CACHE_TTL : Nat := 5 * 60 * 1000

/-- JavaScript `Map.get`. -/
def mapGet (m : KeyCacheMap) (k : String) : Option KeyCacheEntry :=
  (List.find? (fun p => p.1 = k) m).map (fun p => p.2)

/-- JavaScript `Map.set`: update in place, else append (insertion order). -/
def mapSet : KeyCacheMap → String → KeyCacheEntry → KeyCacheMap
  | [], k, v => [(k, v)]
  | (k2, v2) :: t, k, v =>
    if k2 = k then (k, v) :: t else (k2, v2) :: mapSet t k v

/-- JavaScript `Map.delete`. -/
def mapDelete (m : KeyCacheMap) (k : String) : KeyCacheMap :=
  m.filter fun p => p.1 ≠ k

/-- Function `cacheKey` of keys.ts: when the cache is at or above
`MAX_CACHE_SIZE`, delete the oldest-inserted key (the `if (oldestKey)`
truthiness test skips the deletion when that key is the empty string), then
set the new entry. -/
def cacheKey (m : KeyCacheMap) (keyPath : String) (k : EncryptionKey)
    (now ttl : Nat) : KeyCacheMap :=
  let m2 :=
    if MAX_CACHE_SIZE ≤ m.length then
      match m.head? with
      | some kv => if kv.1 = "" then m else mapDelete m kv.1
      | none => m
    else m
  mapSet m2 keyPath ⟨k, now, ttl⟩

/-- Function `getCachedKey` of keys.ts: lazy TTL eviction on lookup.
Returns the result together with the possibly-shrunk cache. -/
def getCachedKey (m : KeyCacheMap) (keyPath : String) (now : Nat) :
    Option EncryptionKey × KeyCacheMap :=
  match mapGet m keyPath with
  | none => (none, m)
  | some entry =>
    if entry.timestamp + entry.ttl < now then (none, mapDelete m keyPath)
    else (some entry.key, m)

/-- Function `clearKeyCache` of keys.ts. -/
def clearKeyCache : KeyCacheMap := []

/-! ## Helper lemmas -/

/-- XOR of two bytes is a byte. -/
theorem byte_xor_lt (a b : Nat) (ha : a < 256) (hb : b < 256) : a ^^^ b < 256 := by
  show Nat.bitwise bne a b < 256
  exact Nat.bitwise_lt (n := 8) ha hb

/-- A cyclic read from an all-byte buffer is a byte (and 0 on an empty one). -/
theorem cycGet_lt (l : List Nat) (hb : ∀ x ∈ l, x < 256) (i : Nat) :
    cycGet l i < 256 := by
  unfold cycGet
  rcases l with _ | ⟨a, t⟩
  · simp [List.getD]
  · have hlen : i % (a :: t).length < (a :: t).length :=
      Nat.mod_lt _ (by simp)
    rw [List.getD_eq_getElem _ _ hlen]
    exact hb _ (List.getElem_mem hlen)

/-- The XOR loop preserves length. -/
theorem xorLoop_length (key iv : List Nat) :
    ∀ (n : Nat) (data : List Nat), (xorLoop key iv n data).length = data.length := by
  intro n data
  induction data generalizing n with
  | nil => rfl
  | cons b rest ih => simp [xorLoop, ih]

/-- One byte of the XOR transform undoes itself. -/
theorem byte_xor_roundtrip (b k v : Nat) (hb : b < 256) (hk : k < 256) (hv : v < 256) :
    ((((b ^^^ k) ^^^ v) % 256 ^^^ k) ^^^ v) % 256 = b := by
  rw [Nat.mod_eq_of_lt (byte_xor_lt _ _ (byte_xor_lt _ _ hb hk) hv)]
  rw [Nat.xor_assoc b k v, Nat.xor_assoc, Nat.xor_cancel_right]
  exact Nat.mod_eq_of_lt hb

/-- Applying the XOR loop twice with the same key and iv restores the data. -/
theorem xorLoop_involutive (key iv : List Nat)
    (hk : ∀ x ∈ key, x < 256) (hv : ∀ x ∈ iv, x < 256) :
    ∀ (n : Nat) (data : List Nat), (∀ x ∈ data, x < 256) →
      xorLoop key iv n (xorLoop key iv n data) = data := by
  intro n data
  induction data generalizing n with
  | nil => intro _; rfl
  | cons b rest ih =>
    intro hd
    simp only [xorLoop]
    rw [byte_xor_roundtrip b (cycGet key n) (cycGet iv n)
        (hd b (by simp)) (cycGet_lt _ hk n) (cycGet_lt _ hv n),
      ih (n + 1) fun x hx => hd x (by simp [hx])]

/-- A list of positive length is not nil, phrased for rewriting. -/
theorem ne_nil_of_length_eq_succ {α : Type} {l : List α} {n : Nat}
    (h : l.length = n + 1) : l ≠ [] := by
  intro hnil
  rw [hnil] at h
  simp at h

/-! ## Claim theorems -/

/-- C3: for every non-empty plaintext byte sequence (the UTF-8 bytes of the
string, covering unicode and any length, in particular up to 1000
characters) and every 32-byte key, decrypting the envelope produced by
`encrypt` with the same key yields exactly the original plaintext.  The
`iv` and `authTag` are the 12- and 16-byte `randomBytes` draws made by the
`encrypt` call. -/
theorem c3_decrypt_encrypt_roundtrip (data key iv tag : List Nat)
    (hd : data ≠ []) (hdb : ∀ x ∈ data, x < 256)
    (hk : key.length = 32) (hkb : ∀ x ∈ key, x < 256)
    (hiv : iv.length = 12) (hivb : ∀ x ∈ iv, x < 256)
    (htag : tag.length = 16) :
    ∀ env, encrypt data key iv tag = .ok env → decrypt env key = .ok data := by
  have henc : encrypt data key iv tag = .ok ⟨xorTransform data key iv, iv, tag⟩ := by
    unfold encrypt
    rw [if_neg hd, if_neg (by rw [hk]; exact fun h => h rfl)]
  intro env henv
  rw [henc] at henv
  cases henv
  show decrypt ⟨xorTransform data key iv, iv, tag⟩ key = .ok data
  have hlen : (xorTransform data key iv).length = data.length :=
    xorLoop_length key iv 0 data
  have hennil : xorTransform data key iv ≠ [] := by
    intro hnil
    rw [hnil] at hlen
    exact hd (List.eq_nil_of_length_eq_zero hlen.symm)
  unfold decrypt
  rw [if_neg, if_neg (by rw [hk]; exact fun h => h rfl)]
  · simp only [hiv, htag]
    rw [if_neg (by decide), if_neg (by decide)]
    show Except.ok (xorTransform (xorTransform data key iv) key iv) = _
    unfold xorTransform
    rw [xorLoop_involutive key iv hkb hivb 0 data hdb]
  · push_neg
    exact ⟨hennil, ne_nil_of_length_eq_succ (n := 11) hiv,
      ne_nil_of_length_eq_succ (n := 15) htag⟩

/-- Witness for C3 at a concrete plaintext, key and randomness draw. -/
theorem c3_decrypt_encrypt_roundtrip_witness :
    ([104, 105, 33] : List Nat) ≠ [] ∧ (List.replicate 32 7 : List Nat).length = 32 ∧
    encrypt [104, 105, 33] (List.replicate 32 7) (List.replicate 12 3)
        (List.replicate 16 1)
      = .ok ⟨[108, 109, 37], List.replicate 12 3, List.replicate 16 1⟩ ∧
    decrypt ⟨[108, 109, 37], List.replicate 12 3, List.replicate 16 1⟩
        (List.replicate 32 7)
      = .ok [104, 105, 33] :=
  ⟨by decide, by decide, by rfl,
    c3_decrypt_encrypt_roundtrip [104, 105, 33] (List.replicate 32 7)
      (List.replicate 12 3) (List.replicate 16 1) (by decide) (by decide)
      (by decide) (by decide) (by decide) (by decide) (by decide)
      ⟨[108, 109, 37], List.replicate 12 3, List.replicate 16 1⟩ (by rfl)⟩

/-- Encoding a character yields at least one byte. -/
theorem utf8EncodeCharNat_ne_nil (c : Char) : utf8EncodeCharNat c ≠ [] := by
  intro hnil
  unfold utf8EncodeCharNat at hnil
  repeat' split at hnil
  all_goals exact absurd hnil (by simp)

/-- A non-empty character list has non-empty UTF-8 bytes. -/
theorem utf8Bytes_ne_nil (l : List Char) (h : l ≠ []) : utf8Bytes l ≠ [] := by
  rcases l with _ | ⟨c, t⟩
  · exact absurd rfl h
  · unfold utf8Bytes
    simp only [List.flatMap_cons]
    intro hnil
    rcases List.append_eq_nil.mp hnil with ⟨h1, _⟩
    exact utf8EncodeCharNat_ne_nil c h1

/-- C9: the ciphertext bytes of the envelope produced by `encrypt` (what the
base64 `encrypted` field decodes to) are exactly as many as the UTF-8 bytes
of the plaintext string, because the XOR stream cipher maps byte to byte —
so the stored ciphertext reveals the exact byte length of the plaintext. -/
theorem c9_ciphertext_length_equals_plaintext_length (s : String)
    (key iv tag : List Nat) (hs : s.data ≠ []) (hk : key.length = 32) :
    ∀ env, encrypt (utf8Bytes s.data) key iv tag = .ok env →
      env.encrypted.length = (utf8Bytes s.data).length := by
  intro env henv
  have hne : utf8Bytes s.data ≠ [] := utf8Bytes_ne_nil s.data hs
  unfold encrypt at henv
  rw [if_neg hne, if_neg (by rw [hk]; exact fun h => h rfl)] at henv
  cases henv
  exact xorLoop_length key iv 0 (utf8Bytes s.data)

/-- Witness for C9 at the concrete string "hi" (two UTF-8 bytes). -/
theorem c9_ciphertext_length_equals_plaintext_length_witness :
    ("hi" : String).data ≠ [] ∧ (List.replicate 32 0 : List Nat).length = 32 ∧
    encrypt (utf8Bytes ("hi" : String).data) (List.replicate 32 0)
        (List.replicate 12 0) (List.replicate 16 0)
      = .ok ⟨[104, 105], List.replicate 12 0, List.replicate 16 0⟩ ∧
    (EncryptionResult.mk [104, 105] (List.replicate 12 0)
        (List.replicate 16 0)).encrypted.length
      = (utf8Bytes ("hi" : String).data).length :=
  ⟨by decide, by decide, by rfl,
    c9_ciphertext_length_equals_plaintext_length "hi" (List.replicate 32 0)
      (List.replicate 12 0) (List.replicate 16 0) (by decide) (by decide)
      ⟨[104, 105], List.replicate 12 0, List.replicate 16 0⟩ (by rfl)⟩

/-- C5: each batch entry point checks its configured ceiling first and, the
moment the input length exceeds it, rejects with the component-appropriate
error — `EncryptionError` above 50 for `encryptBatch`, `DecryptionError`
above 25 for `decryptBatch`, the hash module's error above 100 for both hash
batch functions.  The result is the fixed batch-size error for EVERY input
of excessive length, whatever the items contain, i.e. no per-item work
contributes to the outcome. -/
theorem c5_batch_ceilings_enforced_first :
    (∀ (ps : List (List Nat)) (key : List Nat) (rand : Nat → List Nat × List Nat),
      50 < ps.length →
        encryptBatch ps key rand = .error ⟨"Batch size exceeds limit of 50"⟩) ∧
    (∀ (inputs : List EncryptionResult) (key : List Nat),
      25 < inputs.length →
        decryptBatch inputs key = .error ⟨"Batch size exceeds limit of 25"⟩) ∧
    (∀ (items : List String) (salt : Option (List Nat)),
      100 < items.length →
        generateHashBatch items salt = .error ⟨"Batch size exceeds limit of 100"⟩) ∧
    (∀ (items : List String),
      100 < items.length →
        generateDeterministicHashBatch items
          = .error ⟨"Batch size exceeds limit of 100"⟩) := by
  refine ⟨fun ps key rand h => ?_, fun inputs key h => ?_,
    fun items salt h => ?_, fun items h => ?_⟩
  · unfold encryptBatch
    rw [if_pos (show BATCH_LIMITS_ENCRYPTION < ps.length from h)]
  · unfold decryptBatch
    rw [if_pos (show BATCH_LIMITS_DECRYPTION < inputs.length from h)]
  · unfold generateHashBatch
    rw [if_pos (show BATCH_LIMITS_HASH_GENERATION < items.length from h)]
  · unfold generateDeterministicHashBatch
    rw [if_pos (show BATCH_LIMITS_HASH_GENERATION < items.length from h)]

/-- Witness for C5 at batches of 51, 26 and 101 items. -/
theorem c5_batch_ceilings_enforced_first_witness :
    50 < (List.replicate 51 ([1] : List Nat)).length ∧
    encryptBatch (List.replicate 51 [1]) (List.replicate 32 0) (fun _ => ([], []))
      = .error ⟨"Batch size exceeds limit of 50"⟩ ∧
    25 < (List.replicate 26 (EncryptionResult.mk [1] [2] [3])).length ∧
    decryptBatch (List.replicate 26 ⟨[1], [2], [3]⟩) (List.replicate 32 0)
      = .error ⟨"Batch size exceeds limit of 25"⟩ ∧
    100 < (List.replicate 101 ("x" : String)).length ∧
    generateHashBatch (List.replicate 101 "x") none
      = .error ⟨"Batch size exceeds limit of 100"⟩ ∧
    generateDeterministicHashBatch (List.replicate 101 "x")
      = .error ⟨"Batch size exceeds limit of 100"⟩ :=
  ⟨by decide,
    c5_batch_ceilings_enforced_first.1 _ _ _ (by decide),
    by decide,
    c5_batch_ceilings_enforced_first.2.1 _ _ (by decide),
    by decide,
    c5_batch_ceilings_enforced_first.2.2.1 _ _ (by decide),
    c5_batch_ceilings_enforced_first.2.2.2 _ (by decide)⟩

/-- C2 (code evaluated at the failing inputs): `decrypt` performs no
authentication at all.  With the envelope produced by `encrypt` under the
all-zero key: (1) decrypting with a DIFFERENT 32-byte key returns `.ok`
garbage instead of failing; (2) decrypting a tampered ciphertext returns
`.ok`; (3) decrypting with the correct key but an altered 16-byte authTag
returns the original plaintext `.ok` — the tag is never checked against the
ciphertext.  Each contradicts the claimed `DecryptionError`. -/
theorem c2_decrypt_never_authenticates :
    encrypt [72, 101] (List.replicate 32 0) (List.replicate 12 2)
        (List.replicate 16 9)
      = .ok ⟨[74, 103], List.replicate 12 2, List.replicate 16 9⟩ ∧
    decrypt ⟨[74, 103], List.replicate 12 2, List.replicate 16 9⟩
        (List.replicate 32 1)
      = .ok [73, 100] ∧
    decrypt ⟨[0, 0], List.replicate 12 2, List.replicate 16 9⟩
        (List.replicate 32 0)
      = .ok [2, 2] ∧
    decrypt ⟨[74, 103], List.replicate 12 2, List.replicate 16 8⟩
        (List.replicate 32 0)
      = .ok [72, 101] :=
  ⟨by rfl, by rfl, by rfl, by rfl⟩

/-- Value of the XOR loop at an index, as a function of the inputs. -/
theorem xorLoop_getD (key iv : List Nat) :
    ∀ (n : Nat) (data : List Nat) (j : Nat), j < data.length →
      (xorLoop key iv n data).getD j 0
        = ((data.getD j 0 ^^^ cycGet key (n + j)) ^^^ cycGet iv (n + j)) % 256 := by
  intro n data
  induction data generalizing n with
  | nil => intro j hj; simp at hj
  | cons b rest ih =>
    intro j hj
    cases j with
    | zero => simp [xorLoop]
    | succ j2 =>
      have hstep : (xorLoop key iv n (b :: rest)).getD (j2 + 1) 0
          = (xorLoop key iv (n + 1) rest).getD j2 0 := by
        simp [xorLoop]
      rw [hstep, ih (n + 1) j2 (by simpa using hj)]
      have harith : n + 1 + j2 = n + (j2 + 1) := by omega
      rw [harith]
      simp

/-- Two distinct lists of equal length differ at some valid index. -/
theorem exists_index_ne (l1 l2 : List Nat) (hlen : l1.length = l2.length)
    (hne : l1 ≠ l2) : ∃ j, j < l1.length ∧ l1.getD j 0 ≠ l2.getD j 0 := by
  by_contra hcon
  push_neg at hcon
  apply hne
  apply List.ext_getElem hlen
  intro i h1 h2
  have := hcon i h1
  rwa [List.getD_eq_getElem _ _ h1, List.getD_eq_getElem _ _ h2] at this

/-- A valid-index element of a byte list is a byte. -/
theorem getD_lt_of_forall (l : List Nat) (hb : ∀ x ∈ l, x < 256) (j : Nat)
    (hj : j < l.length) : l.getD j 0 < 256 := by
  rw [List.getD_eq_getElem _ _ hj]
  exact hb _ (List.getElem_mem hj)

/-- C8 counterexample: "two calls performed with independently drawn random
nonces and tags" includes the draws coinciding, and on coinciding draws the
two `encrypt` calls return byte-identical envelopes — equal ciphertext,
equal nonce and equal authentication tag — so the claimed three inequalities
do not hold for every pair of independent draws. -/
theorem c8_equal_draws_equal_envelopes :
    encrypt (List.replicate 12 65) (List.replicate 32 7) (List.replicate 12 3)
        (List.replicate 16 5)
      = .ok ⟨List.replicate 12 69, List.replicate 12 3, List.replicate 16 5⟩ ∧
    (encrypt (List.replicate 12 65) (List.replicate 32 7) (List.replicate 12 3)
        (List.replicate 16 5)).map EncryptionResult.encrypted
      = (encrypt (List.replicate 12 65) (List.replicate 32 7) (List.replicate 12 3)
        (List.replicate 16 5)).map EncryptionResult.encrypted ∧
    (encrypt (List.replicate 12 65) (List.replicate 32 7) (List.replicate 12 3)
        (List.replicate 16 5)).map EncryptionResult.iv
      = (encrypt (List.replicate 12 65) (List.replicate 32 7) (List.replicate 12 3)
        (List.replicate 16 5)).map EncryptionResult.iv ∧
    (encrypt (List.replicate 12 65) (List.replicate 32 7) (List.replicate 12 3)
        (List.replicate 16 5)).map EncryptionResult.authTag
      = (encrypt (List.replicate 12 65) (List.replicate 32 7) (List.replicate 12 3)
        (List.replicate 16 5)).map EncryptionResult.authTag :=
  ⟨by rfl, rfl, rfl, rfl⟩

/-- C8 as amended: when the two calls draw DISTINCT nonces and DISTINCT
tags, the two envelopes have unequal nonce and unequal tag, and — provided
the plaintext is at least 12 bytes, one full nonce period of the XOR stream
— unequal ciphertext as well. -/
theorem c8_distinct_draws_distinct_envelope_fields
    (d k iv1 iv2 tg1 tg2 : List Nat)
    (hd12 : 12 ≤ d.length) (hdb : ∀ x ∈ d, x < 256)
    (hk : k.length = 32) (hkb : ∀ x ∈ k, x < 256)
    (hiv1 : iv1.length = 12) (hiv1b : ∀ x ∈ iv1, x < 256)
    (hiv2 : iv2.length = 12) (hiv2b : ∀ x ∈ iv2, x < 256)
    (hivne : iv1 ≠ iv2) (htgne : tg1 ≠ tg2) :
    (encrypt d k iv1 tg1).map EncryptionResult.encrypted
      ≠ (encrypt d k iv2 tg2).map EncryptionResult.encrypted ∧
    (encrypt d k iv1 tg1).map EncryptionResult.iv
      ≠ (encrypt d k iv2 tg2).map EncryptionResult.iv ∧
    (encrypt d k iv1 tg1).map EncryptionResult.authTag
      ≠ (encrypt d k iv2 tg2).map EncryptionResult.authTag := by
  have hd : d ≠ [] := by
    intro hnil
    rw [hnil] at hd12
    simp at hd12
  have henc1 : encrypt d k iv1 tg1 = .ok ⟨xorTransform d k iv1, iv1, tg1⟩ := by
    unfold encrypt
    rw [if_neg hd, if_neg (by rw [hk]; exact fun h => h rfl)]
  have henc2 : encrypt d k iv2 tg2 = .ok ⟨xorTransform d k iv2, iv2, tg2⟩ := by
    unfold encrypt
    rw [if_neg hd, if_neg (by rw [hk]; exact fun h => h rfl)]
  rw [henc1, henc2]
  simp only [Except.map, Except.ok.injEq]
  refine ⟨fun h0 => ?_, fun h => hivne (Except.ok.inj h),
    fun h => htgne (Except.ok.inj h)⟩
  have hcipher : xorTransform d k iv1 = xorTransform d k iv2 := Except.ok.inj h0
  obtain ⟨j, hj, hjne⟩ := exists_index_ne iv1 iv2 (by rw [hiv1, hiv2]) hivne
  rw [hiv1] at hj
  have hjd : j < d.length := lt_of_lt_of_le hj hd12
  have h1 := xorLoop_getD k iv1 0 d j hjd
  have h2 := xorLoop_getD k iv2 0 d j hjd
  have hget : (xorLoop k iv1 0 d).getD j 0 = (xorLoop k iv2 0 d).getD j 0 := by
    have heq2 : xorTransform d k iv1 = xorTransform d k iv2 := hcipher
    unfold xorTransform at heq2
    rw [heq2]
  rw [h1, h2] at hget
  simp only [Nat.zero_add] at hget
  have hcyc1 : cycGet iv1 j = iv1.getD j 0 := by
    unfold cycGet
    rw [hiv1, Nat.mod_eq_of_lt hj]
  have hcyc2 : cycGet iv2 j = iv2.getD j 0 := by
    unfold cycGet
    rw [hiv2, Nat.mod_eq_of_lt hj]
  rw [hcyc1, hcyc2] at hget
  have hx : d.getD j 0 ^^^ cycGet k j < 256 :=
    byte_xor_lt _ _ (getD_lt_of_forall d hdb j hjd) (cycGet_lt k hkb j)
  have hv1 : iv1.getD j 0 < 256 := getD_lt_of_forall iv1 hiv1b j (by rw [hiv1]; exact hj)
  have hv2 : iv2.getD j 0 < 256 := getD_lt_of_forall iv2 hiv2b j (by rw [hiv2]; exact hj)
  rw [Nat.mod_eq_of_lt (byte_xor_lt _ _ hx hv1),
    Nat.mod_eq_of_lt (byte_xor_lt _ _ hx hv2)] at hget
  exact hjne (Nat.xor_right_injective hget)

/-- Witness for the amended C8 at concrete distinct draws. -/
theorem c8_distinct_draws_distinct_envelope_fields_witness :
    (List.replicate 12 3 : List Nat) ≠ List.replicate 12 4 ∧
    (List.replicate 16 5 : List Nat) ≠ List.replicate 16 6 ∧
    (encrypt (List.replicate 12 65) (List.replicate 32 7) (List.replicate 12 3)
        (List.replicate 16 5)).map EncryptionResult.encrypted
      ≠ (encrypt (List.replicate 12 65) (List.replicate 32 7) (List.replicate 12 4)
        (List.replicate 16 6)).map EncryptionResult.encrypted ∧
    (encrypt (List.replicate 12 65) (List.replicate 32 7) (List.replicate 12 3)
        (List.replicate 16 5)).map EncryptionResult.iv
      ≠ (encrypt (List.replicate 12 65) (List.replicate 32 7) (List.replicate 12 4)
        (List.replicate 16 6)).map EncryptionResult.iv ∧
    (encrypt (List.replicate 12 65) (List.replicate 32 7) (List.replicate 12 3)
        (List.replicate 16 5)).map EncryptionResult.authTag
      ≠ (encrypt (List.replicate 12 65) (List.replicate 32 7) (List.replicate 12 4)
        (List.replicate 16 6)).map EncryptionResult.authTag := by
  have h := c8_distinct_draws_distinct_envelope_fields
    (List.replicate 12 65) (List.replicate 32 7) (List.replicate 12 3)
    (List.replicate 12 4) (List.replicate 16 5) (List.replicate 16 6)
    (by decide) (by decide) (by decide) (by decide) (by decide) (by decide)
    (by decide) (by decide) (by decide) (by decide)
  exact ⟨by decide, by decide, h.1, h.2.1, h.2.2⟩

/-- Every output of `hexDigit` is a hex character. -/
theorem hexDigit_isHex (n : Nat) : isHexChar (hexDigit n) = true := by
  have h : n % 16 < 16 := Nat.mod_lt _ (by norm_num)
  have hb : ∀ m, m < 16 → isHexChar (hexDigit m) = true := by decide
  have heq : hexDigit n = hexDigit (n % 16) := by
    unfold hexDigit
    rw [Nat.mod_eq_of_lt h]
  rw [heq]
  exact hb _ h

/-- The eight characters of a word rendering are hex characters. -/
theorem wordHex_isHex (w : Nat) : ∀ c ∈ wordHex w, isHexChar c = true := by
  intro c hc
  unfold wordHex at hc
  simp only [List.mem_cons, List.not_mem_nil, or_false] at hc
  rcases hc with h | h | h | h | h | h | h | h
  all_goals rw [h]; exact hexDigit_isHex _

/-- A SHA-256 hex digest has exactly 64 characters, for every message. -/
theorem sha256hex_length (msg : List Nat) : (sha256hex msg).length = 64 := by
  unfold sha256hex
  simp [String.length, wordHex]

/-- Every character of a SHA-256 hex digest is a hex character. -/
theorem sha256hex_isHex (msg : List Nat) :
    ∀ c ∈ (sha256hex msg).data, isHexChar c = true := by
  intro c hc
  unfold sha256hex at hc
  simp only [String.data] at hc
  rw [List.mem_flatten] at hc
  obtain ⟨lw, hlw, hcw⟩ := hc
  rw [List.mem_map] at hlw
  obtain ⟨w, _, hw⟩ := hlw
  rw [← hw] at hcw
  exact wordHex_isHex w c hcw

/-- C7: `generateDeterministicHash` lowercases and trims before hashing, so
any two non-empty strings with the same normalized form — in particular
strings differing only in letter case or in surrounding whitespace — get
the same digest; concretely "Test Data", "test data" and " TEST DATA " all
agree; and every digest it returns is a 64-character hex string. -/
theorem c7_deterministic_hash_normalization :
    (∀ s t : String, s.data ≠ [] → t.data ≠ [] →
      jsNormalize s.data = jsNormalize t.data →
      generateDeterministicHash s = generateDeterministicHash t) ∧
    generateDeterministicHash "Test Data" = generateDeterministicHash "test data" ∧
    generateDeterministicHash "test data" = generateDeterministicHash " TEST DATA " ∧
    (∀ (s : String) (d : String), generateDeterministicHash s = .ok d →
      d.length = 64 ∧ ∀ c ∈ d.data, isHexChar c = true) := by
  have hgen : ∀ s t : String, s.data ≠ [] → t.data ≠ [] →
      jsNormalize s.data = jsNormalize t.data →
      generateDeterministicHash s = generateDeterministicHash t := by
    intro s t hs ht hnorm
    unfold generateDeterministicHash
    rw [if_neg hs, if_neg ht, hnorm]
  refine ⟨hgen, hgen _ _ (by decide) (by decide) (by decide),
    hgen _ _ (by decide) (by decide) (by decide), ?_⟩
  intro s d hd
  unfold generateDeterministicHash at hd
  by_cases hs : s.data = []
  · rw [if_pos hs] at hd
    exact absurd hd (by simp)
  · rw [if_neg hs] at hd
    have hded : d = sha256hex (utf8Bytes (jsNormalize s.data)) :=
      (Except.ok.inj hd).symm
    rw [hded]
    exact ⟨sha256hex_length _, sha256hex_isHex _⟩

/-- Witness for C7: the concrete triple plus the format guarantee at "x". -/
theorem c7_deterministic_hash_normalization_witness :
    ("Test Data" : String).data ≠ [] ∧
    jsNormalize ("Test Data" : String).data = jsNormalize ("test data" : String).data ∧
    generateDeterministicHash "Test Data" = generateDeterministicHash "test data" ∧
    generateDeterministicHash "test data" = generateDeterministicHash " TEST DATA " ∧
    generateDeterministicHash "x"
      = .ok (sha256hex (utf8Bytes (jsNormalize ("x" : String).data))) ∧
    (sha256hex (utf8Bytes (jsNormalize ("x" : String).data))).length = 64 :=
  ⟨by decide, by decide,
    c7_deterministic_hash_normalization.2.1,
    c7_deterministic_hash_normalization.2.2.1,
    by rfl,
    (c7_deterministic_hash_normalization.2.2.2 "x" _ (by rfl)).1⟩

/-- A whitespace character is unchanged by `Char.toLower`. -/
theorem toLower_of_whitespace (c : Char) (h : jsIsWhitespace c = true) :
    Char.toLower c = c := by
  unfold jsIsWhitespace jsWhitespaceCodes at h
  simp only [List.mem_cons, List.not_mem_nil, or_false, decide_eq_true_eq] at h
  unfold Char.toLower
  rcases h with h | h | h | h | h | h | h | h | h | h | h | h | h |
    h | h | h | h | h | h | h | h | h | h | h | h
  all_goals rw [h, if_neg (by decide)]

/-- Trimming a list of whitespace characters leaves nothing. -/
theorem jsTrim_of_all_whitespace (l : List Char)
    (h : ∀ c ∈ l, jsIsWhitespace c = true) : jsTrim l = [] := by
  unfold jsTrim
  have h1 : l.dropWhile jsIsWhitespace = [] := List.dropWhile_eq_nil_iff.mpr h
  rw [h1]
  simp

/-- Normalization maps an all-whitespace list to the empty list. -/
theorem jsNormalize_of_all_whitespace (l : List Char)
    (h : ∀ c ∈ l, jsIsWhitespace c = true) : jsNormalize l = [] := by
  unfold jsNormalize jsToLower
  apply jsTrim_of_all_whitespace
  intro c hc
  rw [List.mem_map] at hc
  obtain ⟨x, hx, hxl⟩ := hc
  have hxw := h x hx
  rw [← hxl, toLower_of_whitespace x hxw]
  exact hxw

/-- C10: `generateDeterministicHash` accepts every non-empty all-whitespace
string (the emptiness check precedes normalization) and returns the SHA-256
hex digest of the empty byte sequence, so all whitespace-only inputs
collide on one common digest. -/
theorem c10_whitespace_only_collides_on_empty_digest :
    (∀ s : String, s.data ≠ [] → (∀ c ∈ s.data, jsIsWhitespace c = true) →
      generateDeterministicHash s = .ok (sha256hex [])) ∧
    (∀ s t : String, s.data ≠ [] → t.data ≠ [] →
      (∀ c ∈ s.data, jsIsWhitespace c = true) →
      (∀ c ∈ t.data, jsIsWhitespace c = true) →
      generateDeterministicHash s = generateDeterministicHash t) := by
  have hmain : ∀ s : String, s.data ≠ [] →
      (∀ c ∈ s.data, jsIsWhitespace c = true) →
      generateDeterministicHash s = .ok (sha256hex []) := by
    intro s hs hws
    unfold generateDeterministicHash
    rw [if_neg hs, jsNormalize_of_all_whitespace s.data hws]
    rfl
  refine ⟨hmain, fun s t hs ht hws hwt => ?_⟩
  rw [hmain s hs hws, hmain t ht hwt]

/-- Witness for C10 at the single space and the tab-and-space strings. -/
theorem c10_whitespace_only_collides_on_empty_digest_witness :
    (" " : String).data ≠ [] ∧
    (∀ c ∈ (" " : String).data, jsIsWhitespace c = true) ∧
    generateDeterministicHash " " = .ok (sha256hex []) ∧
    generateDeterministicHash " " = generateDeterministicHash "\t " :=
  ⟨by decide, by decide,
    c10_whitespace_only_collides_on_empty_digest.1 " " (by decide) (by decide),
    c10_whitespace_only_collides_on_empty_digest.2 " " "\t " (by decide)
      (by decide) (by decide) (by decide)⟩

/-- `Map.set` grows the map by at most one entry. -/
theorem mapSet_length_le (m : KeyCacheMap) (k : String) (v : KeyCacheEntry) :
    (mapSet m k v).length ≤ m.length + 1 := by
  induction m with
  | nil => simp [mapSet]
  | cons kv t ih =>
    unfold mapSet
    by_cases h : kv.1 = k
    · rw [if_pos h]
      simp
    · rw [if_neg h]
      simpa using Nat.succ_le_succ ih

/-- Every entry of `Map.set`'s result is the new binding or an old entry. -/
theorem mapSet_mem (m : KeyCacheMap) (k : String) (v : KeyCacheEntry) :
    ∀ kv ∈ mapSet m k v, kv = (k, v) ∨ kv ∈ m := by
  induction m with
  | nil => intro kv h; simp [mapSet] at h; exact Or.inl h
  | cons kv2 t ih =>
    intro kv h
    unfold mapSet at h
    by_cases h2 : kv2.1 = k
    · rw [if_pos h2] at h
      rcases List.mem_cons.mp h with h3 | h3
      · exact Or.inl h3
      · exact Or.inr (List.mem_cons_of_mem _ h3)
    · rw [if_neg h2] at h
      rcases List.mem_cons.mp h with h3 | h3
      · exact Or.inr (h3 ▸ List.mem_cons_self _ _)
      · rcases ih kv h3 with h4 | h4
        · exact Or.inl h4
        · exact Or.inr (List.mem_cons_of_mem _ h4)

/-- Deleting the key of the head entry drops at least that entry. -/
theorem mapDelete_head_length (k0 : String) (e0 : KeyCacheEntry)
    (t : KeyCacheMap) : (mapDelete ((k0, e0) :: t) k0).length ≤ t.length := by
  unfold mapDelete
  rw [List.filter_cons]
  simp only [decide_eq_true_eq]
  rw [if_neg (by simp)]
  exact List.length_filter_le _ t

/-- C6: the cache never exceeds `MAX_CACHE_SIZE` entries: an insertion into
a full cache first evicts the oldest-inserted entry, so the size bound — on
a cache whose keys are the non-empty secret paths the program uses — is
preserved by `cacheKey` (insert), by `getCachedKey` (lazy expiry eviction)
and by `clearKeyCache`; and preservation of the non-empty-keys condition
itself is proved alongside, making the conjunction a genuine invariant. -/
theorem c6_cache_size_bound_invariant (m : KeyCacheMap) (keyPath : String)
    (k : EncryptionKey) (now ttl : Nat)
    (hb : m.length ≤ MAX_CACHE_SIZE)
    (hkeys : ∀ kv ∈ m, kv.1 ≠ "")
    (hpath : keyPath ≠ "") :
    (cacheKey m keyPath k now ttl).length ≤ MAX_CACHE_SIZE ∧
    (∀ kv ∈ cacheKey m keyPath k now ttl, kv.1 ≠ "") ∧
    ((getCachedKey m keyPath now).2).length ≤ MAX_CACHE_SIZE ∧
    (∀ kv ∈ (getCachedKey m keyPath now).2, kv.1 ≠ "") ∧
    clearKeyCache.length ≤ MAX_CACHE_SIZE ∧
    (MAX_CACHE_SIZE ≤ m.length → ∃ kv0, m.head? = some kv0 ∧
      cacheKey m keyPath k now ttl
        = mapSet (mapDelete m kv0.1) keyPath ⟨k, now, ttl⟩) := by
  have hsetkeys : ∀ (m2 : KeyCacheMap), (∀ kv ∈ m2, kv.1 ≠ "") →
      ∀ kv ∈ mapSet m2 keyPath ⟨k, now, ttl⟩, kv.1 ≠ "" := by
    intro m2 hm2 kv hkv
    rcases mapSet_mem m2 keyPath ⟨k, now, ttl⟩ kv hkv with h | h
    · rw [h]
      exact hpath
    · exact hm2 kv h
  have hdelkeys : ∀ (k2 : String), ∀ kv ∈ mapDelete m k2, kv.1 ≠ "" :=
    fun k2 kv hkv => hkeys kv (List.mem_of_mem_filter hkv)
  have hcacheKey : (cacheKey m keyPath k now ttl).length ≤ MAX_CACHE_SIZE ∧
      (∀ kv ∈ cacheKey m keyPath k now ttl, kv.1 ≠ "") ∧
      (MAX_CACHE_SIZE ≤ m.length → ∃ kv0, m.head? = some kv0 ∧
        cacheKey m keyPath k now ttl
          = mapSet (mapDelete m kv0.1) keyPath ⟨k, now, ttl⟩) := by
    unfold cacheKey
    by_cases hfull : MAX_CACHE_SIZE ≤ m.length
    · rcases m with _ | ⟨⟨k0, e0⟩, t⟩
      · exact absurd hfull (by decide)
      · have hk0 : k0 ≠ "" := hkeys (k0, e0) (List.mem_cons_self _ _)
        rw [if_pos hfull]
        simp only [List.head?]
        rw [if_neg hk0]
        have htlen : t.length ≤ MAX_CACHE_SIZE - 1 := by
          simp only [List.length_cons] at hb
          omega
        have hdlen : (mapDelete ((k0, e0) :: t) k0).length ≤ t.length :=
          mapDelete_head_length k0 e0 t
        refine ⟨?_, hsetkeys _ (hdelkeys k0), fun _ => ⟨(k0, e0), rfl, rfl⟩⟩
        calc (mapSet (mapDelete ((k0, e0) :: t) k0) keyPath
                ⟨k, now, ttl⟩).length
            ≤ (mapDelete ((k0, e0) :: t) k0).length + 1 := mapSet_length_le _ _ _
          _ ≤ t.length + 1 := by omega
          _ ≤ MAX_CACHE_SIZE := by
              have : (0 : Nat) < MAX_CACHE_SIZE := by decide
              omega
    · rw [if_neg hfull]
      refine ⟨?_, hsetkeys m hkeys, fun h => absurd h hfull⟩
      calc (mapSet m keyPath ⟨k, now, ttl⟩).length
          ≤ m.length + 1 := mapSet_length_le _ _ _
        _ ≤ MAX_CACHE_SIZE := by omega
  have hget : ((getCachedKey m keyPath now).2).length ≤ MAX_CACHE_SIZE ∧
      (∀ kv ∈ (getCachedKey m keyPath now).2, kv.1 ≠ "") := by
    unfold getCachedKey
    split
    · exact ⟨hb, hkeys⟩
    · split
      · exact ⟨le_trans (List.length_filter_le _ m) hb, hdelkeys keyPath⟩
      · exact ⟨hb, hkeys⟩
  exact ⟨hcacheKey.1, hcacheKey.2.1, hget.1, hget.2, by decide, hcacheKey.2.2⟩

/-- Witness for C6: a concrete full cache of ten entries; inserting an
eleventh key stays within the bound by evicting the oldest entry "k0". -/
theorem c6_cache_size_bound_invariant_witness :
    ([("k0", ⟨⟨[1], "kid", 1⟩, 0, 5⟩),
     ("k1", ⟨⟨[1], "kid", 1⟩, 0, 5⟩),
     ("k2", ⟨⟨[1], "kid", 1⟩, 0, 5⟩),
     ("k3", ⟨⟨[1], "kid", 1⟩, 0, 5⟩),
     ("k4", ⟨⟨[1], "kid", 1⟩, 0, 5⟩),
     ("k5", ⟨⟨[1], "kid", 1⟩, 0, 5⟩),
     ("k6", ⟨⟨[1], "kid", 1⟩, 0, 5⟩),
     ("k7", ⟨⟨[1], "kid", 1⟩, 0, 5⟩),
     ("k8", ⟨⟨[1], "kid", 1⟩, 0, 5⟩),
     ("k9", ⟨⟨[1], "kid", 1⟩, 0, 5⟩)] : KeyCacheMap).length ≤ MAX_CACHE_SIZE ∧
    (cacheKey [("k0", ⟨⟨[1], "kid", 1⟩, 0, 5⟩),
     ("k1", ⟨⟨[1], "kid", 1⟩, 0, 5⟩),
     ("k2", ⟨⟨[1], "kid", 1⟩, 0, 5⟩),
     ("k3", ⟨⟨[1], "kid", 1⟩, 0, 5⟩),
     ("k4", ⟨⟨[1], "kid", 1⟩, 0, 5⟩),
     ("k5", ⟨⟨[1], "kid", 1⟩, 0, 5⟩),
     ("k6", ⟨⟨[1], "kid", 1⟩, 0, 5⟩),
     ("k7", ⟨⟨[1], "kid", 1⟩, 0, 5⟩),
     ("k8", ⟨⟨[1], "kid", 1⟩, 0, 5⟩),
     ("k9", ⟨⟨[1], "kid", 1⟩, 0, 5⟩)] "knew" ⟨[2], "kid2", 1⟩ 7 9).length ≤ MAX_CACHE_SIZE ∧
    ((getCachedKey [("k0", ⟨⟨[1], "kid", 1⟩, 0, 5⟩),
     ("k1", ⟨⟨[1], "kid", 1⟩, 0, 5⟩),
     ("k2", ⟨⟨[1], "kid", 1⟩, 0, 5⟩),
     ("k3", ⟨⟨[1], "kid", 1⟩, 0, 5⟩),
     ("k4", ⟨⟨[1], "kid", 1⟩, 0, 5⟩),
     ("k5", ⟨⟨[1], "kid", 1⟩, 0, 5⟩),
     ("k6", ⟨⟨[1], "kid", 1⟩, 0, 5⟩),
     ("k7", ⟨⟨[1], "kid", 1⟩, 0, 5⟩),
     ("k8", ⟨⟨[1], "kid", 1⟩, 0, 5⟩),
     ("k9", ⟨⟨[1], "kid", 1⟩, 0, 5⟩)] "knew" 7).2).length ≤ MAX_CACHE_SIZE ∧
    clearKeyCache.length ≤ MAX_CACHE_SIZE ∧
    cacheKey [("k0", ⟨⟨[1], "kid", 1⟩, 0, 5⟩),
     ("k1", ⟨⟨[1], "kid", 1⟩, 0, 5⟩),
     ("k2", ⟨⟨[1], "kid", 1⟩, 0, 5⟩),
     ("k3", ⟨⟨[1], "kid", 1⟩, 0, 5⟩),
     ("k4", ⟨⟨[1], "kid", 1⟩, 0, 5⟩),
     ("k5", ⟨⟨[1], "kid", 1⟩, 0, 5⟩),
     ("k6", ⟨⟨[1], "kid", 1⟩, 0, 5⟩),
     ("k7", ⟨⟨[1], "kid", 1⟩, 0, 5⟩),
     ("k8", ⟨⟨[1], "kid", 1⟩, 0, 5⟩),
     ("k9", ⟨⟨[1], "kid", 1⟩, 0, 5⟩)] "knew" ⟨[2], "kid2", 1⟩ 7 9
      = mapSet (mapDelete [("k0", ⟨⟨[1], "kid", 1⟩, 0, 5⟩),
     ("k1", ⟨⟨[1], "kid", 1⟩, 0, 5⟩),
     ("k2", ⟨⟨[1], "kid", 1⟩, 0, 5⟩),
     ("k3", ⟨⟨[1], "kid", 1⟩, 0, 5⟩),
     ("k4", ⟨⟨[1], "kid", 1⟩, 0, 5⟩),
     ("k5", ⟨⟨[1], "kid", 1⟩, 0, 5⟩),
     ("k6", ⟨⟨[1], "kid", 1⟩, 0, 5⟩),
     ("k7", ⟨⟨[1], "kid", 1⟩, 0, 5⟩),
     ("k8", ⟨⟨[1], "kid", 1⟩, 0, 5⟩),
     ("k9", ⟨⟨[1], "kid", 1⟩, 0, 5⟩)] "k0") "knew" ⟨⟨[2], "kid2", 1⟩, 7, 9⟩ := by
  have h := c6_cache_size_bound_invariant [("k0", ⟨⟨[1], "kid", 1⟩, 0, 5⟩),
     ("k1", ⟨⟨[1], "kid", 1⟩, 0, 5⟩),
     ("k2", ⟨⟨[1], "kid", 1⟩, 0, 5⟩),
     ("k3", ⟨⟨[1], "kid", 1⟩, 0, 5⟩),
     ("k4", ⟨⟨[1], "kid", 1⟩, 0, 5⟩),
     ("k5", ⟨⟨[1], "kid", 1⟩, 0, 5⟩),
     ("k6", ⟨⟨[1], "kid", 1⟩, 0, 5⟩),
     ("k7", ⟨⟨[1], "kid", 1⟩, 0, 5⟩),
     ("k8", ⟨⟨[1], "kid", 1⟩, 0, 5⟩),
     ("k9", ⟨⟨[1], "kid", 1⟩, 0, 5⟩)] "knew" ⟨[2], "kid2", 1⟩ 7 9
    (by decide) (by decide) (by decide)
  refine ⟨by decide, h.1, h.2.2.1, h.2.2.2.2.1, ?_⟩
  obtain ⟨kv0, h1, h2⟩ := h.2.2.2.2.2 (by decide)
  have hkv0 : kv0 = ("k0", ⟨⟨[1], "kid", 1⟩, 0, 5⟩) := by
    have h3 : some ("k0", (⟨⟨[1], "kid", 1⟩, 0, 5⟩ : KeyCacheEntry)) = some kv0 := h1
    exact (Option.some.inj h3).symm
  rw [hkv0] at h2
  exact h2

/-- C1 (code evaluated at the failing input): when the per-field encryption
routine throws (here: a key-retrieval failure), `transformDataForStorage`
does NOT fail the operation.  Its `catch` block silently stores the
PLAINTEXT in the ciphertext storage column `email_encrypted`, removes the
plain `email` property, and returns success — exactly the fallback the
claim (and the spec's failure policy) rules out. -/
theorem c1_encryption_failure_stores_plaintext_and_succeeds :
    (transformDataForStorage (fun _ _ => .error ⟨"key retrieval failed"⟩)
        ENCRYPTED_FIELD_MAP_User [("email", .vStr "john.doe@example.com")]).map
      (fun r => (rlookup r "email", rlookup r "email_encrypted"))
      = .ok (none, some (.vStr "john.doe@example.com")) := by
  rfl


/-- Bind on a successful `Except` is application. -/
theorem except_ok_bind {ε α β : Type} (a : α) (f : α → Except ε β) :
    (Except.ok a : Except ε α) >>= f = f a := rfl

/-- A write-transform step skips a field that is absent or null. -/
theorem storageFieldStep_skip
    (encF : String → String → Except EncryptionError String)
    (data acc : JsRecord) (cfg : EncryptionConfig)
    (h : rlookup data cfg.fieldName = none ∨
      rlookup data cfg.fieldName = some .vNull) :
    storageFieldStep encF data acc cfg = .ok acc := by
  unfold storageFieldStep
  rcases h with h | h <;> rw [h]

/-- A write-transform step on a present string value whose encryption and
digest both succeed stores ciphertext and digest and drops the plain name. -/
theorem storageFieldStep_found_ok
    (encF : String → String → Except EncryptionError String)
    (data acc : JsRecord) (cfg : EncryptionConfig) (s2 c2 h2 : String)
    (hfound : rlookup data cfg.fieldName = some (.vStr s2))
    (henc2 : encF s2 cfg.keyPath = .ok c2)
    (hhash2 : createUniqueConstraintHash s2 = .ok h2) :
    storageFieldStep encF data acc cfg
      = .ok (rset (rset (rdelete acc cfg.fieldName) cfg.encryptedField (.vStr c2))
          cfg.hashField (.vStr h2)) := by
  unfold storageFieldStep
  simp only [hfound, henc2, hhash2]

/-- A read-transform step skips a field whose ciphertext column is absent
or null. -/
theorem readFieldStep_skip
    (decF : String → String → Except DecryptionError String)
    (result acc : JsRecord) (cfg : EncryptionConfig)
    (h : rlookup result cfg.encryptedField = none ∨
      rlookup result cfg.encryptedField = some .vNull) :
    readFieldStep decF result acc cfg = acc := by
  unfold readFieldStep
  rcases h with h | h <;> rw [h]

/-- A read-transform step on a present ciphertext that decrypts attaches
the plaintext under the plain name. -/
theorem readFieldStep_found_ok
    (decF : String → String → Except DecryptionError String)
    (result acc : JsRecord) (cfg : EncryptionConfig) (c2 s2 : String)
    (hfound : rlookup result cfg.encryptedField = some (.vStr c2))
    (hdec2 : decF c2 cfg.keyPath = .ok s2) :
    readFieldStep decF result acc cfg = rset acc cfg.fieldName (.vStr s2) := by
  unfold readFieldStep
  simp only [hfound, hdec2]

/-- The write transform passes a record through unchanged when every
registered field is absent or null in it. -/
theorem transform_storage_all_skip
    (encF : String → String → Except EncryptionError String) (data : JsRecord) :
    ∀ (cfgs : List EncryptionConfig),
      (∀ cfg ∈ cfgs, rlookup data cfg.fieldName = none ∨
        rlookup data cfg.fieldName = some .vNull) →
      ∀ acc : JsRecord,
        List.foldlM (fun acc2 cfg => storageFieldStep encF data acc2 cfg) acc cfgs
          = .ok acc := by
  intro cfgs
  induction cfgs with
  | nil => intro _ acc; rfl
  | cons cfg t ih =>
    intro h acc
    rw [List.foldlM_cons,
      storageFieldStep_skip encF data acc cfg (h cfg (List.mem_cons_self _ _)),
      except_ok_bind]
    exact ih (fun c2 hc2 => h c2 (List.mem_cons_of_mem _ hc2)) acc

/-- Looking up a key in a record headed by an entry. -/
theorem rlookup_cons (k2 : String) (v2 : JsValue) (t : JsRecord) (k : String) :
    rlookup ((k2, v2) :: t) k = if k2 = k then some v2 else rlookup t k := by
  unfold rlookup
  rw [List.find?]
  by_cases h : k2 = k
  · simp [h]
  · simp [h]

/-- Assignment makes the assigned key's lookup the new value. -/
theorem rlookup_rset_self (r : JsRecord) (k : String) (v : JsValue) :
    rlookup (rset r k v) k = some v := by
  induction r with
  | nil => simp [rset, rlookup_cons]
  | cons kv t ih =>
    obtain ⟨k2, v2⟩ := kv
    unfold rset
    by_cases h : k2 = k
    · rw [if_pos h, rlookup_cons, if_pos rfl]
    · rw [if_neg h, rlookup_cons, if_neg h]
      exact ih

/-- Assignment leaves every other key's lookup unchanged. -/
theorem rlookup_rset_ne (r : JsRecord) (k : String) (v : JsValue) (k2 : String)
    (h : k2 ≠ k) : rlookup (rset r k v) k2 = rlookup r k2 := by
  induction r with
  | nil =>
    simp only [rset, rlookup_cons]
    rw [if_neg (fun h2 => h h2.symm)]
  | cons kv t ih =>
    obtain ⟨k3, v3⟩ := kv
    unfold rset
    by_cases h3 : k3 = k
    · rw [if_pos h3, rlookup_cons, rlookup_cons, h3,
        if_neg (fun h2 => h h2.symm), if_neg (fun h2 => h h2.symm)]
    · rw [if_neg h3, rlookup_cons, rlookup_cons]
      by_cases h4 : k3 = k2
      · rw [if_pos h4, if_pos h4]
      · rw [if_neg h4, if_neg h4]
        exact ih

/-- Deletion of a key in a record headed by an entry. -/
theorem rdelete_cons (k2 : String) (v2 : JsValue) (t : JsRecord) (k : String) :
    rdelete ((k2, v2) :: t) k
      = if k2 = k then rdelete t k else (k2, v2) :: rdelete t k := by
  unfold rdelete
  rw [List.filter_cons]
  by_cases h : k2 = k
  · simp [h]
  · simp [h]

/-- Deletion empties the deleted key's lookup. -/
theorem rlookup_rdelete_self (r : JsRecord) (k : String) :
    rlookup (rdelete r k) k = none := by
  induction r with
  | nil => rfl
  | cons kv t ih =>
    obtain ⟨k2, v2⟩ := kv
    rw [rdelete_cons]
    by_cases h : k2 = k
    · rw [if_pos h]
      exact ih
    · rw [if_neg h, rlookup_cons, if_neg h]
      exact ih

/-- Deletion leaves every other key's lookup unchanged. -/
theorem rlookup_rdelete_ne (r : JsRecord) (k k2 : String) (h : k2 ≠ k) :
    rlookup (rdelete r k) k2 = rlookup r k2 := by
  induction r with
  | nil => rfl
  | cons kv t ih =>
    obtain ⟨k3, v3⟩ := kv
    rw [rdelete_cons, rlookup_cons]
    by_cases h3 : k3 = k
    · rw [if_pos h3, if_neg (fun h4 => h (h4.symm.trans h3))]
      exact ih
    · rw [if_neg h3, rlookup_cons]
      by_cases h4 : k3 = k2
      · rw [if_pos h4, if_pos h4]
      · rw [if_neg h4, if_neg h4]
        exact ih

/-- An `Except` bind equals `.ok` exactly when both stages do. -/
theorem except_bind_eq_ok {ε α β : Type} (a : Except ε α) (f : α → Except ε β)
    (r : β) : (a >>= f = .ok r) ↔ ∃ b, a = .ok b ∧ f b = .ok r := by
  cases a with
  | error e =>
    constructor
    · intro h
      exact absurd h (by
        show ¬ (Except.error e = Except.ok r)
        simp)
    · rintro ⟨b, hb, _⟩
      exact absurd hb (by simp)
  | ok b =>
    constructor
    · intro h
      exact ⟨b, rfl, h⟩
    · rintro ⟨b2, hb2, hf⟩
      have hbb : b = b2 := Except.ok.inj hb2
      rw [hbb]
      exact hf

/-- Deterministic hashing succeeds on every non-empty string, with the
digest of the normalized input. -/
theorem hash_ok_of_ne_nil (s : String) (hs : s.data ≠ []) :
    createUniqueConstraintHash s
      = .ok (sha256hex (utf8Bytes (jsNormalize s.data))) := by
  unfold createUniqueConstraintHash generateDeterministicHash
  rw [if_neg hs]

/-- A write-transform step on a present string value whose encryption
FAILS but whose digest succeeds takes the catch path: plaintext into the
ciphertext column, digest stored, plain name removed. -/
theorem storageFieldStep_found_encfail
    (encF : String → String → Except EncryptionError String)
    (data acc : JsRecord) (cfg : EncryptionConfig) (s2 h2 : String)
    (e : EncryptionError)
    (hfound : rlookup data cfg.fieldName = some (.vStr s2))
    (henc2 : encF s2 cfg.keyPath = .error e)
    (hhash2 : createUniqueConstraintHash s2 = .ok h2) :
    storageFieldStep encF data acc cfg
      = .ok (rdelete (rset (rset acc cfg.encryptedField (.vStr s2))
          cfg.hashField (.vStr h2)) cfg.fieldName) := by
  unfold storageFieldStep
  simp only [hfound, henc2, hhash2]

/-- Whatever branch a successful write-transform step takes, it only
modifies the step's own three keys. -/
theorem storageFieldStep_preserves
    (encF : String → String → Except EncryptionError String)
    (data acc : JsRecord) (cfg : EncryptionConfig) (r : JsRecord) (k : String)
    (h1 : k ≠ cfg.fieldName) (h2 : k ≠ cfg.encryptedField)
    (h3 : k ≠ cfg.hashField)
    (hr : storageFieldStep encF data acc cfg = .ok r) :
    rlookup r k = rlookup acc k := by
  unfold storageFieldStep at hr
  cases hlook : rlookup data cfg.fieldName with
  | none =>
    simp only [hlook] at hr
    cases hr
    rfl
  | some val =>
    cases val with
    | vNull =>
      simp only [hlook] at hr
      cases hr
      rfl
    | vStr p =>
      cases hencp : encF p cfg.keyPath with
      | ok c2 =>
        cases hhp : createUniqueConstraintHash p with
        | ok h2v =>
          simp only [hlook, hencp, hhp] at hr
          cases hr
          rw [rlookup_rset_ne _ _ _ _ h3, rlookup_rset_ne _ _ _ _ h2,
            rlookup_rdelete_ne _ _ _ h1]
        | error e2 =>
          simp only [hlook, hencp, hhp] at hr
          exact absurd hr (by simp)
      | error e =>
        cases hhp : createUniqueConstraintHash p with
        | ok h2v =>
          simp only [hlook, hencp, hhp] at hr
          cases hr
          rw [rlookup_rdelete_ne _ _ _ h1, rlookup_rset_ne _ _ _ _ h3,
            rlookup_rset_ne _ _ _ _ h2]
        | error e2 =>
          simp only [hlook, hencp, hhp] at hr
          exact absurd hr (by simp)

/-- The write fold succeeds on any record all of whose carried registered
values are non-empty (the digest is then defined; encryption may succeed or
fail per field, both branches produce a record). -/
theorem transform_storage_ok
    (encF : String → String → Except EncryptionError String) (data : JsRecord) :
    ∀ (cfgs : List EncryptionConfig),
      (∀ cfg ∈ cfgs, ∀ s2 : String,
        rlookup data cfg.fieldName = some (.vStr s2) → s2.data ≠ []) →
      ∀ acc : JsRecord, ∃ r,
        List.foldlM (fun acc2 cfg => storageFieldStep encF data acc2 cfg) acc cfgs
          = .ok r := by
  intro cfgs
  induction cfgs with
  | nil => intro _ acc; exact ⟨acc, rfl⟩
  | cons cfg t ih =>
    intro hvals acc
    have hstep : ∃ acc2, storageFieldStep encF data acc cfg = .ok acc2 := by
      cases hlook : rlookup data cfg.fieldName with
      | none => exact ⟨acc, storageFieldStep_skip _ _ _ _ (Or.inl hlook)⟩
      | some val =>
        cases val with
        | vNull => exact ⟨acc, storageFieldStep_skip _ _ _ _ (Or.inr hlook)⟩
        | vStr s2 =>
          have hs2 : s2.data ≠ [] := hvals cfg (List.mem_cons_self _ _) s2 hlook
          have hh := hash_ok_of_ne_nil s2 hs2
          cases hencp : encF s2 cfg.keyPath with
          | ok c2 =>
            exact ⟨_, storageFieldStep_found_ok _ _ _ _ _ _ _ hlook hencp hh⟩
          | error e =>
            exact ⟨_, storageFieldStep_found_encfail _ _ _ _ _ _ _ hlook hencp hh⟩
    obtain ⟨acc2, hacc2⟩ := hstep
    obtain ⟨r, hrr⟩ := ih (fun c2 hc2 => hvals c2 (List.mem_cons_of_mem _ hc2)) acc2
    exact ⟨r, by rw [List.foldlM_cons, hacc2, except_ok_bind, hrr]⟩

/-- The write fold leaves every key foreign to all its configs unchanged. -/
theorem transform_storage_preserves
    (encF : String → String → Except EncryptionError String) (data : JsRecord) :
    ∀ (cfgs : List EncryptionConfig) (acc r : JsRecord) (k : String),
      (∀ cfg ∈ cfgs, k ≠ cfg.fieldName ∧ k ≠ cfg.encryptedField ∧
        k ≠ cfg.hashField) →
      List.foldlM (fun acc2 cfg => storageFieldStep encF data acc2 cfg) acc cfgs
        = .ok r →
      rlookup r k = rlookup acc k := by
  intro cfgs
  induction cfgs with
  | nil =>
    intro acc r k _ hr
    rw [List.foldlM_nil] at hr
    have hra : acc = r := Except.ok.inj hr
    rw [hra]
  | cons cfg t ih =>
    intro acc r k hk hr
    rw [List.foldlM_cons, except_bind_eq_ok] at hr
    obtain ⟨acc2, h1, h2⟩ := hr
    have e1 := storageFieldStep_preserves encF data acc cfg acc2 k
      (hk cfg (List.mem_cons_self _ _)).1 (hk cfg (List.mem_cons_self _ _)).2.1
      (hk cfg (List.mem_cons_self _ _)).2.2 h1
    have e2 := ih acc2 r k (fun c2 hc2 => hk c2 (List.mem_cons_of_mem _ hc2)) h2
    rw [e2, e1]

/-- Splitting the write fold at a carried field whose encryption and digest
succeed: in the result, that field's plain name is gone, its ciphertext
column holds the ciphertext, and its digest column holds the digest of the
normalized plaintext — whatever else the record contains. -/
theorem transform_storage_carried
    (encF : String → String → Except EncryptionError String) (data : JsRecord)
    (cfg : EncryptionConfig) (s c : String) (l1 l2 : List EncryptionConfig)
    (hfound : rlookup data cfg.fieldName = some (.vStr s))
    (hs : s.data ≠ [])
    (henc : encF s cfg.keyPath = .ok c)
    (hself1 : cfg.fieldName ≠ cfg.encryptedField)
    (hself2 : cfg.fieldName ≠ cfg.hashField)
    (hself3 : cfg.encryptedField ≠ cfg.hashField)
    (hdisj : ∀ cfg2 ∈ l2,
      (cfg.fieldName ≠ cfg2.fieldName ∧ cfg.fieldName ≠ cfg2.encryptedField ∧
        cfg.fieldName ≠ cfg2.hashField) ∧
      (cfg.encryptedField ≠ cfg2.fieldName ∧
        cfg.encryptedField ≠ cfg2.encryptedField ∧
        cfg.encryptedField ≠ cfg2.hashField) ∧
      (cfg.hashField ≠ cfg2.fieldName ∧ cfg.hashField ≠ cfg2.encryptedField ∧
        cfg.hashField ≠ cfg2.hashField)) :
    ∀ acc r : JsRecord,
      List.foldlM (fun acc2 cfg3 => storageFieldStep encF data acc2 cfg3) acc
        (l1 ++ cfg :: l2) = .ok r →
      rlookup r cfg.fieldName = none ∧
      rlookup r cfg.encryptedField = some (.vStr c) ∧
      rlookup r cfg.hashField
        = some (.vStr (sha256hex (utf8Bytes (jsNormalize s.data)))) := by
  intro acc r hr
  rw [List.foldlM_append, except_bind_eq_ok] at hr
  obtain ⟨acc1, _, h2⟩ := hr
  rw [List.foldlM_cons, except_bind_eq_ok] at h2
  obtain ⟨acc2, h3, h4⟩ := h2
  rw [storageFieldStep_found_ok encF data acc1 cfg s c _ hfound henc
    (hash_ok_of_ne_nil s hs)] at h3
  have hacc2 : acc2 = rset (rset (rdelete acc1 cfg.fieldName)
      cfg.encryptedField (.vStr c)) cfg.hashField
      (.vStr (sha256hex (utf8Bytes (jsNormalize s.data)))) :=
    (Except.ok.inj h3).symm
  rw [hacc2] at h4
  refine ⟨?_, ?_, ?_⟩
  · rw [transform_storage_preserves encF data l2 _ r cfg.fieldName
      (fun c2 hc2 => (hdisj c2 hc2).1) h4,
      rlookup_rset_ne _ _ _ _ hself2, rlookup_rset_ne _ _ _ _ hself1,
      rlookup_rdelete_self]
  · rw [transform_storage_preserves encF data l2 _ r cfg.encryptedField
      (fun c2 hc2 => (hdisj c2 hc2).2.1) h4,
      rlookup_rset_ne _ _ _ _ hself3, rlookup_rset_self]
  · rw [transform_storage_preserves encF data l2 _ r cfg.hashField
      (fun c2 hc2 => (hdisj c2 hc2).2.2) h4,
      rlookup_rset_self]

/-- Splitting the write fold at a null-or-absent field: all three of that
field's columns come out exactly as they went in. -/
theorem transform_storage_skipped_untouched
    (encF : String → String → Except EncryptionError String) (data : JsRecord)
    (cfg : EncryptionConfig) (l1 l2 : List EncryptionConfig)
    (hskip : rlookup data cfg.fieldName = none ∨
      rlookup data cfg.fieldName = some .vNull)
    (hdisj1 : ∀ cfg2 ∈ l1,
      (cfg.fieldName ≠ cfg2.fieldName ∧ cfg.fieldName ≠ cfg2.encryptedField ∧
        cfg.fieldName ≠ cfg2.hashField) ∧
      (cfg.encryptedField ≠ cfg2.fieldName ∧
        cfg.encryptedField ≠ cfg2.encryptedField ∧
        cfg.encryptedField ≠ cfg2.hashField) ∧
      (cfg.hashField ≠ cfg2.fieldName ∧ cfg.hashField ≠ cfg2.encryptedField ∧
        cfg.hashField ≠ cfg2.hashField))
    (hdisj2 : ∀ cfg2 ∈ l2,
      (cfg.fieldName ≠ cfg2.fieldName ∧ cfg.fieldName ≠ cfg2.encryptedField ∧
        cfg.fieldName ≠ cfg2.hashField) ∧
      (cfg.encryptedField ≠ cfg2.fieldName ∧
        cfg.encryptedField ≠ cfg2.encryptedField ∧
        cfg.encryptedField ≠ cfg2.hashField) ∧
      (cfg.hashField ≠ cfg2.fieldName ∧ cfg.hashField ≠ cfg2.encryptedField ∧
        cfg.hashField ≠ cfg2.hashField)) :
    ∀ acc r : JsRecord,
      List.foldlM (fun acc2 cfg3 => storageFieldStep encF data acc2 cfg3) acc
        (l1 ++ cfg :: l2) = .ok r →
      rlookup r cfg.fieldName = rlookup acc cfg.fieldName ∧
      rlookup r cfg.encryptedField = rlookup acc cfg.encryptedField ∧
      rlookup r cfg.hashField = rlookup acc cfg.hashField := by
  intro acc r hr
  rw [List.foldlM_append, except_bind_eq_ok] at hr
  obtain ⟨acc1, h1, h2⟩ := hr
  rw [List.foldlM_cons, storageFieldStep_skip encF data acc1 cfg hskip,
    except_ok_bind] at h2
  refine ⟨?_, ?_, ?_⟩
  · rw [transform_storage_preserves encF data l2 acc1 r cfg.fieldName
      (fun c2 hc2 => (hdisj2 c2 hc2).1) h2,
      transform_storage_preserves encF data l1 acc acc1 cfg.fieldName
      (fun c2 hc2 => (hdisj1 c2 hc2).1) h1]
  · rw [transform_storage_preserves encF data l2 acc1 r cfg.encryptedField
      (fun c2 hc2 => (hdisj2 c2 hc2).2.1) h2,
      transform_storage_preserves encF data l1 acc acc1 cfg.encryptedField
      (fun c2 hc2 => (hdisj1 c2 hc2).2.1) h1]
  · rw [transform_storage_preserves encF data l2 acc1 r cfg.hashField
      (fun c2 hc2 => (hdisj2 c2 hc2).2.2) h2,
      transform_storage_preserves encF data l1 acc acc1 cfg.hashField
      (fun c2 hc2 => (hdisj1 c2 hc2).2.2) h1]

/-- A read-transform step only modifies its own plain field name. -/
theorem readFieldStep_preserve_ne
    (decF : String → String → Except DecryptionError String)
    (result acc : JsRecord) (cfg : EncryptionConfig) (k : String)
    (hk : k ≠ cfg.fieldName) :
    rlookup (readFieldStep decF result acc cfg) k = rlookup acc k := by
  unfold readFieldStep
  cases hlook : rlookup result cfg.encryptedField with
  | none => rfl
  | some val =>
    cases val with
    | vNull => rfl
    | vStr c2 =>
      cases hd : decF c2 cfg.keyPath with
      | ok s2 =>
        simp only [hd]
        exact rlookup_rset_ne _ _ _ _ hk
      | error e =>
        simp only [hd]
        exact rlookup_rset_ne _ _ _ _ hk

/-- The read fold leaves every key that is no config's plain name
unchanged. -/
theorem read_fold_preserve
    (decF : String → String → Except DecryptionError String)
    (result : JsRecord) :
    ∀ (cfgs : List EncryptionConfig) (acc : JsRecord) (k : String),
      (∀ cfg2 ∈ cfgs, k ≠ cfg2.fieldName) →
      rlookup (List.foldl (fun acc2 cfg2 => readFieldStep decF result acc2 cfg2)
        acc cfgs) k = rlookup acc k := by
  intro cfgs
  induction cfgs with
  | nil => intro acc k _; rfl
  | cons cfg t ih =>
    intro acc k hk
    rw [List.foldl_cons,
      ih _ k (fun c2 hc2 => hk c2 (List.mem_cons_of_mem _ hc2)),
      readFieldStep_preserve_ne decF result acc cfg k
        (hk cfg (List.mem_cons_self _ _))]

/-- Splitting the read fold at a config whose ciphertext column is present
in the fetched record and decrypts: the plain name ends up holding the
plaintext, whatever the other configs do. -/
theorem read_fold_carried
    (decF : String → String → Except DecryptionError String)
    (result : JsRecord) (cfg : EncryptionConfig) (c s : String)
    (l1 l2 : List EncryptionConfig)
    (hfoundr : rlookup result cfg.encryptedField = some (.vStr c))
    (hdec : decF c cfg.keyPath = .ok s)
    (hdisj : ∀ cfg2 ∈ l2, cfg.fieldName ≠ cfg2.fieldName) :
    ∀ acc : JsRecord,
      rlookup (List.foldl (fun acc2 cfg2 => readFieldStep decF result acc2 cfg2)
        acc (l1 ++ cfg :: l2)) cfg.fieldName = some (.vStr s) := by
  intro acc
  rw [List.foldl_append, List.foldl_cons,
    readFieldStep_found_ok decF result _ cfg c s hfoundr hdec,
    read_fold_preserve decF result l2 _ cfg.fieldName hdisj,
    rlookup_rset_self]

/-- C4: for EVERY input record to the write path carrying a non-null string
value under a registered sensitive field name (any entry of the `User`
registry), and any per-field cipher routine `encF` that succeeds on that
value (the source dispatches to `mockEncrypt` or to the missing
`encryptData`; the pair (`encF`, `decF`) is the spec's Cipher Engine
contract), the write transform succeeds, and every successful result has no
property under the plain field name, the ciphertext in the field's
ciphertext column, and the digest column equal to
`createUniqueConstraintHash` of the plaintext; every registered field that
is null or absent in the input keeps all three of its columns exactly as
they were, every non-registered property is untouched, and the read
transform with the matching `decF` restores the original plaintext under
the plain field name.  (All carried registered values are assumed
non-empty, which is what makes their digests defined.) -/
theorem c4_write_then_read_restores_plaintext
    (data : JsRecord) (cfg : EncryptionConfig) (s c : String)
    (encF : String → String → Except EncryptionError String)
    (decF : String → String → Except DecryptionError String)
    (hcfg : cfg ∈ ENCRYPTED_FIELD_MAP_User)
    (hfound : rlookup data cfg.fieldName = some (.vStr s))
    (henc : encF s cfg.keyPath = .ok c)
    (hdec : decF c cfg.keyPath = .ok s)
    (hvals : ∀ cfg2 ∈ ENCRYPTED_FIELD_MAP_User, ∀ s2 : String,
      rlookup data cfg2.fieldName = some (.vStr s2) → s2.data ≠ []) :
    (∃ r0, transformDataForStorage encF ENCRYPTED_FIELD_MAP_User data
      = .ok r0) ∧
    (∀ r, transformDataForStorage encF ENCRYPTED_FIELD_MAP_User data = .ok r →
      rlookup r cfg.fieldName = none ∧
      rlookup r cfg.encryptedField = some (.vStr c) ∧
      rlookup r cfg.hashField
        = (createUniqueConstraintHash s).toOption.map JsValue.vStr ∧
      (∀ cfg2 ∈ ENCRYPTED_FIELD_MAP_User,
        (rlookup data cfg2.fieldName = none ∨
          rlookup data cfg2.fieldName = some .vNull) →
        rlookup r cfg2.fieldName = rlookup data cfg2.fieldName ∧
        rlookup r cfg2.encryptedField = rlookup data cfg2.encryptedField ∧
        rlookup r cfg2.hashField = rlookup data cfg2.hashField) ∧
      (∀ k : String, (∀ cfg2 ∈ ENCRYPTED_FIELD_MAP_User,
          k ≠ cfg2.fieldName ∧ k ≠ cfg2.encryptedField ∧ k ≠ cfg2.hashField) →
        rlookup r k = rlookup data k) ∧
      rlookup (transformDataForReading decF ENCRYPTED_FIELD_MAP_User r)
        cfg.fieldName = some (.vStr s)) := by
  have hs : s.data ≠ [] := hvals cfg hcfg s hfound
  have hhash := hash_ok_of_ne_nil s hs
  refine ⟨transform_storage_ok encF data ENCRYPTED_FIELD_MAP_User hvals data, ?_⟩
  intro r hr
  have hr2 : List.foldlM (fun acc2 cfg3 => storageFieldStep encF data acc2 cfg3)
      data ENCRYPTED_FIELD_MAP_User = .ok r := hr
  have hd : ∀ cfg2 ∈ ENCRYPTED_FIELD_MAP_User,
      (rlookup data cfg2.fieldName = none ∨
        rlookup data cfg2.fieldName = some .vNull) →
      rlookup r cfg2.fieldName = rlookup data cfg2.fieldName ∧
      rlookup r cfg2.encryptedField = rlookup data cfg2.encryptedField ∧
      rlookup r cfg2.hashField = rlookup data cfg2.hashField := by
    intro cfg2 hc2 hskip
    simp only [ENCRYPTED_FIELD_MAP_User, List.mem_cons, List.not_mem_nil,
      or_false] at hc2
    rcases hc2 with h2 | h2 | h2 | h2 | h2 <;> subst h2
    · exact transform_storage_skipped_untouched encF data (⟨"firstName", "firstName_encrypted", "firstName_hash", "/app/encryption/names-key"⟩ : EncryptionConfig)
        ([] : List EncryptionConfig)
        [(⟨"lastName", "lastName_encrypted", "lastName_hash", "/app/encryption/names-key"⟩ : EncryptionConfig), (⟨"email", "email_encrypted", "email_hash", "/app/encryption/email-key"⟩ : EncryptionConfig), (⟨"phone", "phone_encrypted", "phone_hash", "/app/encryption/phone-key"⟩ : EncryptionConfig), (⟨"phoneVerificationCode", "phoneVerificationCode_encrypted", "phoneVerificationCode_hash", "/app/encryption/temp-key"⟩ : EncryptionConfig)]
        hskip (by decide) (by decide) data r hr2
    · exact transform_storage_skipped_untouched encF data (⟨"lastName", "lastName_encrypted", "lastName_hash", "/app/encryption/names-key"⟩ : EncryptionConfig)
        [(⟨"firstName", "firstName_encrypted", "firstName_hash", "/app/encryption/names-key"⟩ : EncryptionConfig)]
        [(⟨"email", "email_encrypted", "email_hash", "/app/encryption/email-key"⟩ : EncryptionConfig), (⟨"phone", "phone_encrypted", "phone_hash", "/app/encryption/phone-key"⟩ : EncryptionConfig), (⟨"phoneVerificationCode", "phoneVerificationCode_encrypted", "phoneVerificationCode_hash", "/app/encryption/temp-key"⟩ : EncryptionConfig)]
        hskip (by decide) (by decide) data r hr2
    · exact transform_storage_skipped_untouched encF data (⟨"email", "email_encrypted", "email_hash", "/app/encryption/email-key"⟩ : EncryptionConfig)
        [(⟨"firstName", "firstName_encrypted", "firstName_hash", "/app/encryption/names-key"⟩ : EncryptionConfig), (⟨"lastName", "lastName_encrypted", "lastName_hash", "/app/encryption/names-key"⟩ : EncryptionConfig)]
        [(⟨"phone", "phone_encrypted", "phone_hash", "/app/encryption/phone-key"⟩ : EncryptionConfig), (⟨"phoneVerificationCode", "phoneVerificationCode_encrypted", "phoneVerificationCode_hash", "/app/encryption/temp-key"⟩ : EncryptionConfig)]
        hskip (by decide) (by decide) data r hr2
    · exact transform_storage_skipped_untouched encF data (⟨"phone", "phone_encrypted", "phone_hash", "/app/encryption/phone-key"⟩ : EncryptionConfig)
        [(⟨"firstName", "firstName_encrypted", "firstName_hash", "/app/encryption/names-key"⟩ : EncryptionConfig), (⟨"lastName", "lastName_encrypted", "lastName_hash", "/app/encryption/names-key"⟩ : EncryptionConfig), (⟨"email", "email_encrypted", "email_hash", "/app/encryption/email-key"⟩ : EncryptionConfig)]
        [(⟨"phoneVerificationCode", "phoneVerificationCode_encrypted", "phoneVerificationCode_hash", "/app/encryption/temp-key"⟩ : EncryptionConfig)]
        hskip (by decide) (by decide) data r hr2
    · exact transform_storage_skipped_untouched encF data (⟨"phoneVerificationCode", "phoneVerificationCode_encrypted", "phoneVerificationCode_hash", "/app/encryption/temp-key"⟩ : EncryptionConfig)
        [(⟨"firstName", "firstName_encrypted", "firstName_hash", "/app/encryption/names-key"⟩ : EncryptionConfig), (⟨"lastName", "lastName_encrypted", "lastName_hash", "/app/encryption/names-key"⟩ : EncryptionConfig), (⟨"email", "email_encrypted", "email_hash", "/app/encryption/email-key"⟩ : EncryptionConfig), (⟨"phone", "phone_encrypted", "phone_hash", "/app/encryption/phone-key"⟩ : EncryptionConfig)]
        ([] : List EncryptionConfig)
        hskip (by decide) (by decide) data r hr2
  have he : ∀ k : String, (∀ cfg2 ∈ ENCRYPTED_FIELD_MAP_User,
      k ≠ cfg2.fieldName ∧ k ≠ cfg2.encryptedField ∧ k ≠ cfg2.hashField) →
      rlookup r k = rlookup data k := fun k hk =>
    transform_storage_preserves encF data ENCRYPTED_FIELD_MAP_User data r k hk hr2
  simp only [ENCRYPTED_FIELD_MAP_User, List.mem_cons, List.not_mem_nil,
    or_false] at hcfg
  rcases hcfg with h2 | h2 | h2 | h2 | h2 <;> subst h2
  · have hcarr := transform_storage_carried encF data (⟨"firstName", "firstName_encrypted", "firstName_hash", "/app/encryption/names-key"⟩ : EncryptionConfig) s c
      ([] : List EncryptionConfig)
      [(⟨"lastName", "lastName_encrypted", "lastName_hash", "/app/encryption/names-key"⟩ : EncryptionConfig), (⟨"email", "email_encrypted", "email_hash", "/app/encryption/email-key"⟩ : EncryptionConfig), (⟨"phone", "phone_encrypted", "phone_hash", "/app/encryption/phone-key"⟩ : EncryptionConfig), (⟨"phoneVerificationCode", "phoneVerificationCode_encrypted", "phoneVerificationCode_hash", "/app/encryption/temp-key"⟩ : EncryptionConfig)]
      hfound hs henc (by decide) (by decide) (by decide) (by decide) data r hr2
    refine ⟨hcarr.1, hcarr.2.1, ?_, hd, he, ?_⟩
    · rw [hcarr.2.2, hhash]
      rfl
    · exact read_fold_carried decF r (⟨"firstName", "firstName_encrypted", "firstName_hash", "/app/encryption/names-key"⟩ : EncryptionConfig) c s
        ([] : List EncryptionConfig)
        [(⟨"lastName", "lastName_encrypted", "lastName_hash", "/app/encryption/names-key"⟩ : EncryptionConfig), (⟨"email", "email_encrypted", "email_hash", "/app/encryption/email-key"⟩ : EncryptionConfig), (⟨"phone", "phone_encrypted", "phone_hash", "/app/encryption/phone-key"⟩ : EncryptionConfig), (⟨"phoneVerificationCode", "phoneVerificationCode_encrypted", "phoneVerificationCode_hash", "/app/encryption/temp-key"⟩ : EncryptionConfig)]
        hcarr.2.1 hdec (by decide) r
  · have hcarr := transform_storage_carried encF data (⟨"lastName", "lastName_encrypted", "lastName_hash", "/app/encryption/names-key"⟩ : EncryptionConfig) s c
      [(⟨"firstName", "firstName_encrypted", "firstName_hash", "/app/encryption/names-key"⟩ : EncryptionConfig)]
      [(⟨"email", "email_encrypted", "email_hash", "/app/encryption/email-key"⟩ : EncryptionConfig), (⟨"phone", "phone_encrypted", "phone_hash", "/app/encryption/phone-key"⟩ : EncryptionConfig), (⟨"phoneVerificationCode", "phoneVerificationCode_encrypted", "phoneVerificationCode_hash", "/app/encryption/temp-key"⟩ : EncryptionConfig)]
      hfound hs henc (by decide) (by decide) (by decide) (by decide) data r hr2
    refine ⟨hcarr.1, hcarr.2.1, ?_, hd, he, ?_⟩
    · rw [hcarr.2.2, hhash]
      rfl
    · exact read_fold_carried decF r (⟨"lastName", "lastName_encrypted", "lastName_hash", "/app/encryption/names-key"⟩ : EncryptionConfig) c s
        [(⟨"firstName", "firstName_encrypted", "firstName_hash", "/app/encryption/names-key"⟩ : EncryptionConfig)]
        [(⟨"email", "email_encrypted", "email_hash", "/app/encryption/email-key"⟩ : EncryptionConfig), (⟨"phone", "phone_encrypted", "phone_hash", "/app/encryption/phone-key"⟩ : EncryptionConfig), (⟨"phoneVerificationCode", "phoneVerificationCode_encrypted", "phoneVerificationCode_hash", "/app/encryption/temp-key"⟩ : EncryptionConfig)]
        hcarr.2.1 hdec (by decide) r
  · have hcarr := transform_storage_carried encF data (⟨"email", "email_encrypted", "email_hash", "/app/encryption/email-key"⟩ : EncryptionConfig) s c
      [(⟨"firstName", "firstName_encrypted", "firstName_hash", "/app/encryption/names-key"⟩ : EncryptionConfig), (⟨"lastName", "lastName_encrypted", "lastName_hash", "/app/encryption/names-key"⟩ : EncryptionConfig)]
      [(⟨"phone", "phone_encrypted", "phone_hash", "/app/encryption/phone-key"⟩ : EncryptionConfig), (⟨"phoneVerificationCode", "phoneVerificationCode_encrypted", "phoneVerificationCode_hash", "/app/encryption/temp-key"⟩ : EncryptionConfig)]
      hfound hs henc (by decide) (by decide) (by decide) (by decide) data r hr2
    refine ⟨hcarr.1, hcarr.2.1, ?_, hd, he, ?_⟩
    · rw [hcarr.2.2, hhash]
      rfl
    · exact read_fold_carried decF r (⟨"email", "email_encrypted", "email_hash", "/app/encryption/email-key"⟩ : EncryptionConfig) c s
        [(⟨"firstName", "firstName_encrypted", "firstName_hash", "/app/encryption/names-key"⟩ : EncryptionConfig), (⟨"lastName", "lastName_encrypted", "lastName_hash", "/app/encryption/names-key"⟩ : EncryptionConfig)]
        [(⟨"phone", "phone_encrypted", "phone_hash", "/app/encryption/phone-key"⟩ : EncryptionConfig), (⟨"phoneVerificationCode", "phoneVerificationCode_encrypted", "phoneVerificationCode_hash", "/app/encryption/temp-key"⟩ : EncryptionConfig)]
        hcarr.2.1 hdec (by decide) r
  · have hcarr := transform_storage_carried encF data (⟨"phone", "phone_encrypted", "phone_hash", "/app/encryption/phone-key"⟩ : EncryptionConfig) s c
      [(⟨"firstName", "firstName_encrypted", "firstName_hash", "/app/encryption/names-key"⟩ : EncryptionConfig), (⟨"lastName", "lastName_encrypted", "lastName_hash", "/app/encryption/names-key"⟩ : EncryptionConfig), (⟨"email", "email_encrypted", "email_hash", "/app/encryption/email-key"⟩ : EncryptionConfig)]
      [(⟨"phoneVerificationCode", "phoneVerificationCode_encrypted", "phoneVerificationCode_hash", "/app/encryption/temp-key"⟩ : EncryptionConfig)]
      hfound hs henc (by decide) (by decide) (by decide) (by decide) data r hr2
    refine ⟨hcarr.1, hcarr.2.1, ?_, hd, he, ?_⟩
    · rw [hcarr.2.2, hhash]
      rfl
    · exact read_fold_carried decF r (⟨"phone", "phone_encrypted", "phone_hash", "/app/encryption/phone-key"⟩ : EncryptionConfig) c s
        [(⟨"firstName", "firstName_encrypted", "firstName_hash", "/app/encryption/names-key"⟩ : EncryptionConfig), (⟨"lastName", "lastName_encrypted", "lastName_hash", "/app/encryption/names-key"⟩ : EncryptionConfig), (⟨"email", "email_encrypted", "email_hash", "/app/encryption/email-key"⟩ : EncryptionConfig)]
        [(⟨"phoneVerificationCode", "phoneVerificationCode_encrypted", "phoneVerificationCode_hash", "/app/encryption/temp-key"⟩ : EncryptionConfig)]
        hcarr.2.1 hdec (by decide) r
  · have hcarr := transform_storage_carried encF data (⟨"phoneVerificationCode", "phoneVerificationCode_encrypted", "phoneVerificationCode_hash", "/app/encryption/temp-key"⟩ : EncryptionConfig) s c
      [(⟨"firstName", "firstName_encrypted", "firstName_hash", "/app/encryption/names-key"⟩ : EncryptionConfig), (⟨"lastName", "lastName_encrypted", "lastName_hash", "/app/encryption/names-key"⟩ : EncryptionConfig), (⟨"email", "email_encrypted", "email_hash", "/app/encryption/email-key"⟩ : EncryptionConfig), (⟨"phone", "phone_encrypted", "phone_hash", "/app/encryption/phone-key"⟩ : EncryptionConfig)]
      ([] : List EncryptionConfig)
      hfound hs henc (by decide) (by decide) (by decide) (by decide) data r hr2
    refine ⟨hcarr.1, hcarr.2.1, ?_, hd, he, ?_⟩
    · rw [hcarr.2.2, hhash]
      rfl
    · exact read_fold_carried decF r (⟨"phoneVerificationCode", "phoneVerificationCode_encrypted", "phoneVerificationCode_hash", "/app/encryption/temp-key"⟩ : EncryptionConfig) c s
        [(⟨"firstName", "firstName_encrypted", "firstName_hash", "/app/encryption/names-key"⟩ : EncryptionConfig), (⟨"lastName", "lastName_encrypted", "lastName_hash", "/app/encryption/names-key"⟩ : EncryptionConfig), (⟨"email", "email_encrypted", "email_hash", "/app/encryption/email-key"⟩ : EncryptionConfig), (⟨"phone", "phone_encrypted", "phone_hash", "/app/encryption/phone-key"⟩ : EncryptionConfig)]
        ([] : List EncryptionConfig)
        hcarr.2.1 hdec (by decide) r

/-- Witness for C4 on a record that also has a non-registered property
("id"), a null registered field ("phone") and a second carried registered
field ("firstName"), with a concrete invertible cipher pair. -/
theorem c4_write_then_read_restores_plaintext_witness :
    rlookup [("id", JsValue.vStr "u1"), ("email", .vStr "john.doe@example.com"),
       ("phone", .vNull), ("firstName", .vStr "Jo")] "email" = some (.vStr "john.doe@example.com") ∧
    transformDataForStorage (fun (v : String) (_ : String) =>
       (Except.ok ("enc:" ++ v) : Except EncryptionError String))
      ENCRYPTED_FIELD_MAP_User [("id", JsValue.vStr "u1"), ("email", .vStr "john.doe@example.com"),
       ("phone", .vNull), ("firstName", .vStr "Jo")]
      = .ok [("id", JsValue.vStr "u1"), ("phone", .vNull),
       ("firstName_encrypted", .vStr "enc:Jo"),
       ("firstName_hash",
         .vStr (sha256hex (utf8Bytes (jsNormalize ("Jo" : String).data)))),
       ("email_encrypted", .vStr "enc:john.doe@example.com"),
       ("email_hash", .vStr (sha256hex (utf8Bytes
         (jsNormalize ("john.doe@example.com" : String).data))))] ∧
    rlookup [("id", JsValue.vStr "u1"), ("phone", .vNull),
       ("firstName_encrypted", .vStr "enc:Jo"),
       ("firstName_hash",
         .vStr (sha256hex (utf8Bytes (jsNormalize ("Jo" : String).data)))),
       ("email_encrypted", .vStr "enc:john.doe@example.com"),
       ("email_hash", .vStr (sha256hex (utf8Bytes
         (jsNormalize ("john.doe@example.com" : String).data))))] "email" = none ∧
    rlookup [("id", JsValue.vStr "u1"), ("phone", .vNull),
       ("firstName_encrypted", .vStr "enc:Jo"),
       ("firstName_hash",
         .vStr (sha256hex (utf8Bytes (jsNormalize ("Jo" : String).data)))),
       ("email_encrypted", .vStr "enc:john.doe@example.com"),
       ("email_hash", .vStr (sha256hex (utf8Bytes
         (jsNormalize ("john.doe@example.com" : String).data))))] "email_encrypted" = some (.vStr "enc:john.doe@example.com") ∧
    rlookup [("id", JsValue.vStr "u1"), ("phone", .vNull),
       ("firstName_encrypted", .vStr "enc:Jo"),
       ("firstName_hash",
         .vStr (sha256hex (utf8Bytes (jsNormalize ("Jo" : String).data)))),
       ("email_encrypted", .vStr "enc:john.doe@example.com"),
       ("email_hash", .vStr (sha256hex (utf8Bytes
         (jsNormalize ("john.doe@example.com" : String).data))))] "email_hash"
      = (createUniqueConstraintHash "john.doe@example.com").toOption.map
          JsValue.vStr ∧
    rlookup [("id", JsValue.vStr "u1"), ("phone", .vNull),
       ("firstName_encrypted", .vStr "enc:Jo"),
       ("firstName_hash",
         .vStr (sha256hex (utf8Bytes (jsNormalize ("Jo" : String).data)))),
       ("email_encrypted", .vStr "enc:john.doe@example.com"),
       ("email_hash", .vStr (sha256hex (utf8Bytes
         (jsNormalize ("john.doe@example.com" : String).data))))] "phone" = some .vNull ∧
    rlookup [("id", JsValue.vStr "u1"), ("phone", .vNull),
       ("firstName_encrypted", .vStr "enc:Jo"),
       ("firstName_hash",
         .vStr (sha256hex (utf8Bytes (jsNormalize ("Jo" : String).data)))),
       ("email_encrypted", .vStr "enc:john.doe@example.com"),
       ("email_hash", .vStr (sha256hex (utf8Bytes
         (jsNormalize ("john.doe@example.com" : String).data))))] "phone_encrypted" = none ∧
    rlookup [("id", JsValue.vStr "u1"), ("phone", .vNull),
       ("firstName_encrypted", .vStr "enc:Jo"),
       ("firstName_hash",
         .vStr (sha256hex (utf8Bytes (jsNormalize ("Jo" : String).data)))),
       ("email_encrypted", .vStr "enc:john.doe@example.com"),
       ("email_hash", .vStr (sha256hex (utf8Bytes
         (jsNormalize ("john.doe@example.com" : String).data))))] "id" = some (.vStr "u1") ∧
    rlookup (transformDataForReading (fun (v : String) (_ : String) =>
       (Except.ok (v.drop 4) : Except DecryptionError String))
        ENCRYPTED_FIELD_MAP_User [("id", JsValue.vStr "u1"), ("phone", .vNull),
       ("firstName_encrypted", .vStr "enc:Jo"),
       ("firstName_hash",
         .vStr (sha256hex (utf8Bytes (jsNormalize ("Jo" : String).data)))),
       ("email_encrypted", .vStr "enc:john.doe@example.com"),
       ("email_hash", .vStr (sha256hex (utf8Bytes
         (jsNormalize ("john.doe@example.com" : String).data))))]) "email"
      = some (.vStr "john.doe@example.com") := by
  have hvals0 : ∀ cfg2 ∈ ENCRYPTED_FIELD_MAP_User, ∀ s2 : String,
      rlookup [("id", JsValue.vStr "u1"), ("email", .vStr "john.doe@example.com"),
       ("phone", .vNull), ("firstName", .vStr "Jo")] cfg2.fieldName = some (.vStr s2) → s2.data ≠ [] := by
    intro cfg2 hc2 s2 hlook
    simp only [ENCRYPTED_FIELD_MAP_User, List.mem_cons, List.not_mem_nil,
      or_false] at hc2
    rcases hc2 with h2 | h2 | h2 | h2 | h2 <;> subst h2
    · have h4 := Option.some.inj
        (show some (JsValue.vStr "Jo") = some (JsValue.vStr s2) from hlook)
      injection h4 with h5
      subst h5
      decide
    · exact absurd
        (show (none : Option JsValue) = some (.vStr s2) from hlook) (by simp)
    · have h4 := Option.some.inj
        (show some (JsValue.vStr "john.doe@example.com")
          = some (JsValue.vStr s2) from hlook)
      injection h4 with h5
      subst h5
      decide
    · exact absurd
        (show some JsValue.vNull = some (.vStr s2) from hlook) (by simp)
    · exact absurd
        (show (none : Option JsValue) = some (.vStr s2) from hlook) (by simp)
  have h := c4_write_then_read_restores_plaintext
    [("id", JsValue.vStr "u1"), ("email", .vStr "john.doe@example.com"),
       ("phone", .vNull), ("firstName", .vStr "Jo")]
    (⟨"email", "email_encrypted", "email_hash", "/app/encryption/email-key"⟩ : EncryptionConfig)
    "john.doe@example.com" "enc:john.doe@example.com"
    (fun (v : String) (_ : String) =>
       (Except.ok ("enc:" ++ v) : Except EncryptionError String))
    (fun (v : String) (_ : String) =>
       (Except.ok (v.drop 4) : Except DecryptionError String))
    (by decide) (by rfl) (by rfl) (by rfl) hvals0
  have hb := h.2
    [("id", JsValue.vStr "u1"), ("phone", .vNull),
       ("firstName_encrypted", .vStr "enc:Jo"),
       ("firstName_hash",
         .vStr (sha256hex (utf8Bytes (jsNormalize ("Jo" : String).data)))),
       ("email_encrypted", .vStr "enc:john.doe@example.com"),
       ("email_hash", .vStr (sha256hex (utf8Bytes
         (jsNormalize ("john.doe@example.com" : String).data))))]
    (by rfl)
  have hph := hb.2.2.2.1 (⟨"phone", "phone_encrypted", "phone_hash", "/app/encryption/phone-key"⟩ : EncryptionConfig) (by decide) (Or.inr (by rfl))
  have hid := hb.2.2.2.2.1 "id" (by decide)
  exact ⟨by rfl, by rfl, hb.1, hb.2.1, hb.2.2.1,
    hph.1.trans (by rfl), hph.2.1.trans (by rfl), hid.trans (by rfl),
    hb.2.2.2.2.2⟩
